import Mathlib

/-!
Verification of the `tooldocs` in-memory tool-documentation registry.

The Go sources (`store.go`, `types.go`) are shallowly embedded: Go's
dynamically typed `any` payloads become the closed inductive `Value`
(with explicit constructors for each case of the source's type switches,
including a `vunknown` constructor for values outside every recognized
case), Go maps become association lists, nil-able slices become
`Option (List _)` where the code distinguishes nil from empty, and the
mutating store methods become pure functions from store to store.
Machine integers are modelled as `Int`/`Nat`; no overflow is relevant
to any routine here.  `truncateString` slices Go strings by byte; the
model slices by character, which agrees on the ASCII strings used in
all concrete witnesses.  Go's `float64` carries no arithmetic anywhere
in the code, so float payloads are modelled as an opaque `Int` tag.
-/

namespace Tooldocs

/- A Go `any` value as handled by the type switches in `store.go`.
`vint` models every Go integer kind (`int`, `int8` … `uint64`); `vfloat`
models `float64`/`float32` payloads abstractly; `vunknown` models a value
of any type outside the switches (the `default` branches). -/
mutual
inductive Value where
  | vnull
  | vstr (s : String)
  | vbool (b : Bool)
  | vint (n : Int)
  | vfloat (n : Int)
  | vjsonNum (s : String)
  | vmapAny (m : VFields)
  | vseqAny (xs : VItems)
  | vmapStr (m : List (String × String))
  | vmapInt (m : List (String × Int))
  | vmapFloat (m : List (String × Int))
  | vmapBool (m : List (String × Bool))
  | vseqStr (xs : List String)
  | vseqInt (xs : List Int)
  | vseqFloat (xs : List Int)
  | vseqBool (xs : List Bool)
  | vunknown (tag : Int)

/-- The entry list of a Go `map[string]any` (association list). -/
inductive VFields where
  | nil
  | cons (key : String) (val : Value) (rest : VFields)

/-- The element list of a Go `[]any`. -/
inductive VItems where
  | nil
  | cons (val : Value) (rest : VItems)
end

/-- Number of entries of a `map[string]any` (Go `len`). -/
def VFields.length : VFields → Nat
  | .nil => 0
  | .cons _ _ rest => 1 + rest.length

/-- Number of elements of a `[]any` (Go `len`). -/
def VItems.length : VItems → Nat
  | .nil => 0
  | .cons _ rest => 1 + rest.length

/-- View of a field list as an ordinary list of pairs. -/
def VFields.toList : VFields → List (String × Value)
  | .nil => []
  | .cons k v rest => (k, v) :: rest.toList

/-- View of an item list as an ordinary list. -/
def VItems.toList : VItems → List Value
  | .nil => []
  | .cons v rest => v :: rest.toList

/-- Go map lookup `m[k]` (`ok` = `isSome`); Go maps have unique keys, so
taking the first matching entry of the association list is faithful. -/
def VFields.lookup : VFields → String → Option Value
  | .nil, _ => none
  | .cons k v rest, key => if k = key then some v else rest.lookup key

/-- A Go `map[string]any` variable, which may be nil. -/
abbrev Args := Option VFields

/-- `types.go`: truncation caps enforced at registration time. -/
def MaxDescriptionLen : Nat := 300

def MaxResultHintLen : Nat := 200

def MaxSummaryLen : Nat := 200

def MaxNotesLen : Nat := 2000

/-- `types.go`: Args caps. -/
def MaxArgsDepth : Nat := 5

def MaxArgsKeys : Nat := 50

/-- `types.go` `truncateString`: truncates `s` to `maxLen` characters. -/
def truncateString (s : String) (maxLen : Nat) : String :=
  if s.length ≤ maxLen then s else s.take maxLen

/-- `types.go` `ArgsStats`. -/
structure ArgsStats where
  depth : Nat
  keys : Nat
deriving Repr, DecidableEq

/- `types.go` `countValueMetrics`/`countArgsMetrics`, split into mutual
structural recursions.  `countFieldsMetrics m d` is the fold body of
`countArgsMetrics` (children measured at depth `d+1`); the wrapper
`countArgsMetrics` below adds the map's own key count and depth.
Returns `(size, maxDepth)` in each case. -/
mutual
def countFieldsMetrics : VFields → Nat → Nat × Nat
  | .nil, _ => (0, 0)
  | .cons _ v rest, currentDepth =>
    let c := countValueMetrics v (currentDepth + 1)
    let r := countFieldsMetrics rest currentDepth
    (c.1 + r.1, max c.2 r.2)

def countItemsMetrics : VItems → Nat → Nat × Nat
  | .nil, _ => (0, 0)
  | .cons v rest, currentDepth =>
    let c := countValueMetrics v (currentDepth + 1)
    let r := countItemsMetrics rest currentDepth
    (c.1 + r.1, max c.2 r.2)

def countValueMetrics : Value → Nat → Nat × Nat
  | .vmapAny m, currentDepth =>
    let r := countFieldsMetrics m currentDepth
    (m.length + r.1, max currentDepth r.2)
  | .vseqAny xs, currentDepth =>
    let r := countItemsMetrics xs currentDepth
    (xs.length + r.1, max currentDepth r.2)
  | _, currentDepth => (0, currentDepth - 1)
end

/-- `types.go` `countArgsMetrics`: returns `(totalKeys, maxDepth)`. -/
def countArgsMetrics (m : VFields) (currentDepth : Nat) : Nat × Nat :=
  let r := countFieldsMetrics m currentDepth
  (m.length + r.1, max currentDepth r.2)

/-- `types.go` `ValidateArgs`: stats plus the validity flag. -/
def ValidateArgs : Args → ArgsStats × Bool
  | none => ({ depth := 0, keys := 0 }, true)
  | some m =>
    let r := countArgsMetrics m 1
    ({ depth := r.2, keys := r.1 },
      decide (r.2 ≤ MaxArgsDepth) && decide (r.1 ≤ MaxArgsKeys))

/-- `map[string]string` → `map[string]any` normalization body. -/
def ofStrFields : List (String × String) → VFields
  | [] => .nil
  | (k, v) :: rest => .cons k (.vstr v) (ofStrFields rest)

def ofIntFields : List (String × Int) → VFields
  | [] => .nil
  | (k, v) :: rest => .cons k (.vint v) (ofIntFields rest)

def ofFloatFields : List (String × Int) → VFields
  | [] => .nil
  | (k, v) :: rest => .cons k (.vfloat v) (ofFloatFields rest)

def ofBoolFields : List (String × Bool) → VFields
  | [] => .nil
  | (k, v) :: rest => .cons k (.vbool v) (ofBoolFields rest)

/-- `[]string` → `[]any` normalization body, and the other typed slices. -/
def ofStrItems : List String → VItems
  | [] => .nil
  | v :: rest => .cons (.vstr v) (ofStrItems rest)

def ofIntItems : List Int → VItems
  | [] => .nil
  | v :: rest => .cons (.vint v) (ofIntItems rest)

def ofFloatItems : List Int → VItems
  | [] => .nil
  | v :: rest => .cons (.vfloat v) (ofFloatItems rest)

def ofBoolItems : List Bool → VItems
  | [] => .nil
  | v :: rest => .cons (.vbool v) (ofBoolItems rest)

/- `store.go` `deepCopyValue` (with `deepCopySlice`/`deepCopyArgs`
inlined into the two container recursions): deep copies and normalizes
typed containers to `map[string]any`/`[]any`; primitives are returned
directly; unknown types are shallow-copied (`vunknown` kept as-is). -/
mutual
def deepCopyFields : VFields → VFields
  | .nil => .nil
  | .cons k v rest => .cons k (deepCopyValue v) (deepCopyFields rest)

def deepCopyItems : VItems → VItems
  | .nil => .nil
  | .cons v rest => .cons (deepCopyValue v) (deepCopyItems rest)

def deepCopyValue : Value → Value
  | .vnull => .vnull
  | .vmapAny m => .vmapAny (deepCopyFields m)
  | .vseqAny xs => .vseqAny (deepCopyItems xs)
  | .vmapStr m => .vmapAny (ofStrFields m)
  | .vmapInt m => .vmapAny (ofIntFields m)
  | .vmapFloat m => .vmapAny (ofFloatFields m)
  | .vmapBool m => .vmapAny (ofBoolFields m)
  | .vseqStr xs => .vseqAny (ofStrItems xs)
  | .vseqInt xs => .vseqAny (ofIntItems xs)
  | .vseqFloat xs => .vseqAny (ofFloatItems xs)
  | .vseqBool xs => .vseqAny (ofBoolItems xs)
  | .vstr s => .vstr s
  | .vbool b => .vbool b
  | .vint n => .vint n
  | .vfloat n => .vfloat n
  | .vjsonNum s => .vjsonNum s
  | .vunknown tag => .vunknown tag
end

/-- `store.go` `deepCopyArgs`: nil in, nil out. -/
def deepCopyArgs : Args → Args
  | none => none
  | some m => some (deepCopyFields m)

/-- `store.go` `toStringSlice`: converts `[]string` / `[]any` to
`[]string` (dropping non-string items of an `[]any`); every other value,
including nil, yields a nil slice (`none`). -/
def toStringSlice : Value → Option (List String)
  | .vseqStr s => some s
  | .vseqAny s => some (s.toList.filterMap fun v =>
      match v with
      | .vstr str => some str
      | _ => none)
  | _ => none

/-- `store.go` `normalizeNumeric`: every Go integer kind and `float32`
become `float64`; everything else is unchanged. -/
def normalizeNumeric : Value → Value
  | .vint n => .vfloat n
  | v => v

/-- The `InputSchema` argument of `deriveSchemaInfo`, by the cases of
its type switch.  JSON (un)marshalling lives in `encoding/json`, outside
this repository, so the `json.RawMessage`, `[]byte` and round-trip cases
carry their external parse outcome (`none` = the unmarshal or marshal
step errored). -/
inductive SchemaInput where
  | smap (m : VFields)
  | sraw (parsed : Option VFields)
  | sbytes (parsed : Option VFields)
  | sother (roundTrip : Option VFields)
  | snil

/-- The coercion prefix of `deriveSchemaInfo` (`store.go` lines 539-566):
nil schema and failed parses yield no map. -/
def coerceSchemaMap : SchemaInput → Option VFields
  | .smap m => some m
  | .sraw p => p
  | .sbytes p => p
  | .sother p => p
  | .snil => none

/-- `types.go` `SchemaInfo`.  `none` models a nil Go map/slice field. -/
structure SchemaInfo where
  required : Option (List String)
  defaults : Option (List (String × Value))
  types : Option (List (String × List String))

/-- Models a Go type assertion `v.(map[string]any)` (`ok` = `isSome`). -/
def asMapAny : Value → Option VFields
  | .vmapAny m => some m
  | _ => none

/-- Models a Go type assertion `v.(string)` (`ok` = `isSome`). -/
def asString : Value → Option String
  | .vstr s => some s
  | _ => none

/-- The `type` extraction for one property (`store.go` lines 588-596):
a string becomes a one-element list; otherwise `toStringSlice` must
yield a non-empty list. -/
def typeEntryOf (propMap : VFields) : Option (List String) :=
  match propMap.lookup "type" with
  | some t =>
    match asString t with
    | some tv => some [tv]
    | none =>
      match toStringSlice t with
      | some types => if types.length > 0 then some types else none
      | none => none
  | none => none

/-- The `default` extraction for one property (`store.go` lines
599-602): recorded (numeric-normalized) whenever the key is present. -/
def defaultEntryOf (propMap : VFields) : Option Value :=
  (propMap.lookup "default").map normalizeNumeric

/-- The `properties` loop body of `deriveSchemaInfo` (`store.go` lines
585-604): accumulates the `Types` and `Defaults` entries over the
property map.  A property whose value is not a `map[string]any`
contributes nothing. -/
def extractProps : VFields → List (String × List String) × List (String × Value)
  | .nil => ([], [])
  | .cons name prop rest =>
    let r := extractProps rest
    match asMapAny prop with
    | some propMap =>
      (match typeEntryOf propMap with
       | some ts => (name, ts) :: r.1
       | none => r.1,
       match defaultEntryOf propMap with
       | some d => (name, d) :: r.2
       | none => r.2)
    | none => r

/-- `store.go` `deriveSchemaInfo`.  After the coercion prefix: extracts
`required` (only when the key is present), the per-property types and
defaults (only when `properties` is present and is a keyed mapping),
tracks whether anything yielded data, and nils out empty
`Types`/`Defaults` maps; returns no info when nothing yielded data.
The Go function returns only a possibly-nil `*SchemaInfo` and no error,
so the embedding is a total function into `Option SchemaInfo`. -/
def deriveSchemaInfo (schema : SchemaInput) : Option SchemaInfo :=
  match coerceSchemaMap schema with
  | none => none
  | some schemaMap =>
    let required : Option (List String) :=
      match schemaMap.lookup "required" with
      | some req => toStringSlice req
      | none => none
    let requiredHasData := decide ((required.getD []).length > 0)
    let props : List (String × List String) × List (String × Value) :=
      match (schemaMap.lookup "properties").bind asMapAny with
      | some propsMap => extractProps propsMap
      | none => ([], [])
    let hasData := requiredHasData || decide (props.1.length > 0) || decide (props.2.length > 0)
    if hasData then
      some { required := required
           , types := if props.1.length = 0 then none else some props.1
           , defaults := if props.2.length = 0 then none else some props.2 }
    else none

/-- `toolmodel.Tool` (external collaborator), restricted to the fields
this repository reads: display name, namespace, human description and
the input-schema blob (spec section 6). -/
structure Tool where
  name : String
  namespc : String
  description : String
  inputSchema : SchemaInput

/-- `types.go` `ToolExample`. -/
structure ToolExample where
  id : String
  title : String
  description : String
  args : Args
  resultHint : String

/-- `types.go` `DocEntry`. -/
structure DocEntry where
  summary : String
  notes : String
  examples : List ToolExample
  externalRefs : List String

/-- `store.go` `docRecord`. -/
structure docRecord where
  summary : String
  notes : String
  examples : List ToolExample
  externalRefs : List String

/-- `types.go` `ToolDoc`.  `examples`/`externalRefs` are `Option` lists
because the code distinguishes nil slices (fields untouched at
summary/schema level) from populated ones. -/
structure ToolDoc where
  tool : Option Tool
  summary : String
  schemaInfo : Option SchemaInfo
  notes : String
  examples : Option (List ToolExample)
  externalRefs : Option (List String)

/-- `types.go` `DetailLevel` is a string type with three constants. -/
def DetailSummary : String := "summary"

def DetailSchema : String := "schema"

def DetailFull : String := "full"

/-- The error values of `store.go`, with the data `fmt.Errorf` wraps
around each sentinel.  `resolverFailure` carries a resolver error
verbatim (resolver errors are modelled as opaque strings). -/
inductive StoreErr where
  | errNotFound (id : String)
  | errInvalidDetail (level : String)
  | errNoTool (id : String)
  | errArgsTooLarge (idx : Nat) (title : String) (depth : Nat) (keys : Nat)
  | resolverFailure (e : String)
deriving Repr, DecidableEq

/-- `store.go` `InMemoryStore`.  A nil `Index` is the constantly-`none`
function (the code only asks the index whether `GetTool` succeeds); a
nil `ToolResolver` is `none`.  The resolver returns either an error or
a possibly-nil `*toolmodel.Tool`. -/
structure InMemoryStore where
  index : String → Option Tool
  toolResolver : Option (String → Except String (Option Tool))
  docs : String → Option docRecord
  maxExamples : Int

/-- `types.go` `DocEntry.ValidateAndTruncate`. -/
def DocEntry.ValidateAndTruncate (e : DocEntry) : DocEntry :=
  { summary := truncateString e.summary MaxSummaryLen
  , notes := truncateString e.notes MaxNotesLen
  , externalRefs := e.externalRefs
  , examples := e.examples.map fun ex =>
      { id := ex.id
      , title := ex.title
      , description := truncateString ex.description MaxDescriptionLen
      , args := ex.args
      , resultHint := truncateString ex.resultHint MaxResultHintLen } }

/-- The example loop of `RegisterDoc` (`store.go` lines 104-123): deep
copy each example's Args, validate the caps on the normalized copy, and
fail with `ErrArgsTooLarge` (index, title, measured stats) on the first
invalid example. -/
def buildRegisterDocExamples : List ToolExample → Nat → Except StoreErr (List ToolExample)
  | [], _ => .ok []
  | ex :: rest, i =>
    let argsCopy := deepCopyArgs ex.args
    let v := ValidateArgs argsCopy
    if v.2 then
      match buildRegisterDocExamples rest (i + 1) with
      | .ok l => .ok ({ id := ex.id
                      , title := ex.title
                      , description := ex.description
                      , args := argsCopy
                      , resultHint := ex.resultHint } :: l)
      | .error e => .error e
    else .error (.errArgsTooLarge i ex.title v.1.depth v.1.keys)

/-- The example loop of `RegisterExamples` (`store.go` lines 152-171):
same validation, but additionally truncates Description/ResultHint. -/
def buildRegisterExamplesList : List ToolExample → Nat → Except StoreErr (List ToolExample)
  | [], _ => .ok []
  | ex :: rest, i =>
    let argsCopy := deepCopyArgs ex.args
    let v := ValidateArgs argsCopy
    if v.2 then
      match buildRegisterExamplesList rest (i + 1) with
      | .ok l => .ok ({ id := ex.id
                      , title := ex.title
                      , description := truncateString ex.description MaxDescriptionLen
                      , args := argsCopy
                      , resultHint := truncateString ex.resultHint MaxResultHintLen } :: l)
      | .error e => .error e
    else .error (.errArgsTooLarge i ex.title v.1.depth v.1.keys)

/-- `store.go` `RegisterDoc`, as a store transformer returning the Go
method's error in the second component.  All validation happens before
any store update, so on error the store is returned untouched (the code
returns before taking the lock). -/
def RegisterDoc (s : InMemoryStore) (id : String) (entry : DocEntry) : InMemoryStore × Option StoreErr :=
  let entry := entry.ValidateAndTruncate
  match buildRegisterDocExamples entry.examples 0 with
  | .error e => (s, some e)
  | .ok examples =>
    let externalRefs := entry.externalRefs
    let record0 := match s.docs id with
      | some r => r
      | none => { summary := "", notes := "", examples := [], externalRefs := [] }
    let record := { record0 with
        summary := entry.summary
      , notes := entry.notes
      , examples := examples
      , externalRefs := externalRefs }
    ({ s with docs := fun k => if k = id then some record else s.docs k }, none)

/-- `store.go` `RegisterExamples`: replaces only the examples list,
creating an otherwise-empty record when none exists. -/
def RegisterExamples (s : InMemoryStore) (id : String) (examples : List ToolExample) : InMemoryStore × Option StoreErr :=
  match buildRegisterExamplesList examples 0 with
  | .error e => (s, some e)
  | .ok truncated =>
    let record0 := match s.docs id with
      | some r => r
      | none => { summary := "", notes := "", examples := [], externalRefs := [] }
    let record := { record0 with examples := truncated }
    ({ s with docs := fun k => if k = id then some record else s.docs k }, none)

/-- `store.go` `copyExamples`: deep copy of a slice of examples. -/
def copyExamples (examples : List ToolExample) : List ToolExample :=
  examples.map fun ex =>
    { id := ex.id
    , title := ex.title
    , description := ex.description
    , args := deepCopyArgs ex.args
    , resultHint := ex.resultHint }

/-- The tool-resolution block of `DescribeTool` (`store.go` lines
218-234): consult the index first; only on an index miss and with a
resolver configured call the resolver, remembering its error.  Returns
(resolved tool, pending resolver error). -/
def resolveForDescribe (s : InMemoryStore) (id : String) : Option Tool × Option String :=
  match s.index id with
  | some t => (some t, none)
  | none =>
    match s.toolResolver with
    | none => (none, none)
    | some r =>
      match r id with
      | .error e => (none, some e)
      | .ok t => (t, none)

/-- The tool-existence check of `ListExamples` (`store.go` lines
308-321): an index hit short-circuits; otherwise a configured resolver
is consulted and its error is returned to the caller. -/
def resolveForList (s : InMemoryStore) (id : String) : Except String Bool :=
  if (s.index id).isSome then .ok true
  else
    match s.toolResolver with
    | none => .ok false
    | some r =>
      match r id with
      | .error e => .error e
      | .ok t => .ok t.isSome

/-- `store.go` `DescribeTool`. -/
def DescribeTool (s : InMemoryStore) (id : String) (level : String) : Except StoreErr ToolDoc :=
  if level = DetailSummary ∨ level = DetailSchema ∨ level = DetailFull then
    let docRec := s.docs id
    let hasDoc := docRec.isSome
    let summary0 := match docRec with
      | some r => r.summary
      | none => ""
    let notes := match docRec with
      | some r => r.notes
      | none => ""
    let examples : Option (List ToolExample) := docRec.map fun r => copyExamples r.examples
    let externalRefs : Option (List String) := docRec.map fun r => r.externalRefs
    let maxExamples := s.maxExamples
    let resolved := resolveForDescribe s id
    let tool := resolved.1
    let resolverErr := resolved.2
    if (level = DetailSchema ∨ level = DetailFull) ∧ tool.isNone then
      match resolverErr with
      | some e => .error (.resolverFailure e)
      | none => if hasDoc then .error (.errNoTool id) else .error (.errNotFound id)
    else
      let summary :=
        match tool with
        | some t =>
          if summary0 = "" ∧ t.description ≠ "" then truncateString t.description MaxSummaryLen
          else summary0
        | none => summary0
      if level = DetailSummary then
        if summary = "" ∧ ¬hasDoc ∧ tool.isNone then
          match resolverErr with
          | some e => .error (.resolverFailure e)
          | none => .error (.errNotFound id)
        else
          .ok { tool := none, summary := summary, schemaInfo := none
              , notes := "", examples := none, externalRefs := none }
      else
        let schemaInfo : Option SchemaInfo := tool.bind fun t => deriveSchemaInfo t.inputSchema
        let base : ToolDoc :=
          { tool := tool, summary := summary, schemaInfo := schemaInfo
          , notes := "", examples := none, externalRefs := none }
        if level = DetailFull then
          let cappedExamples : Option (List ToolExample) :=
            match examples with
            | some l =>
              some (if 0 < maxExamples ∧ maxExamples < (l.length : Int) then l.take maxExamples.toNat else l)
            | none => none
          .ok { base with notes := notes, externalRefs := externalRefs, examples := cappedExamples }
        else .ok base
  else .error (.errInvalidDetail level)

/-- The tail of `ListExamples` (`store.go` lines 327-344) as a pure
function of the copied example list `l`, the configured default and the
per-call limit: an empty (or nil) list returns the explicitly non-nil
`[]ToolExample{}`; otherwise the effective limit is computed and
applied. -/
def listLimitApplied (l : List ToolExample) (defaultMax maxExamples : Int) : List ToolExample :=
  if l.length = 0 then []
  else
    let effectiveMax :=
      if 0 < defaultMax then
        (if maxExamples ≤ 0 ∨ defaultMax < maxExamples then defaultMax else maxExamples)
      else maxExamples
    if 0 < effectiveMax ∧ effectiveMax < (l.length : Int) then l.take effectiveMax.toNat else l

/-- `store.go` `ListExamples`.  The success value is always a `some`
list (never a nil slice): the empty case returns the explicitly
non-nil `[]ToolExample{}`, folded into `listLimitApplied`; a missing
record contributes a nil `examples` variable, whose length-0 path is
the same `some []`. -/
def ListExamples (s : InMemoryStore) (id : String) (maxExamples : Int) : Except StoreErr (Option (List ToolExample)) :=
  let docRec := s.docs id
  let hasDoc := docRec.isSome
  match resolveForList s id with
  | .error e => .error (.resolverFailure e)
  | .ok toolExists =>
    if ¬hasDoc ∧ ¬toolExists then .error (.errNotFound id)
    else
      .ok (some (listLimitApplied
        (copyExamples (match docRec with | some r => r.examples | none => []))
        s.maxExamples maxExamples))

/-! ### Helper lemmas for registration (claim C1) -/

/-- The depth/size-cap violation the spec describes, measured on the
normalized (deep-copied) Args exactly as the registration loops do. -/
def argsExceedCaps (a : Args) : Prop :=
  MaxArgsDepth < (ValidateArgs (deepCopyArgs a)).1.depth ∨
    MaxArgsKeys < (ValidateArgs (deepCopyArgs a)).1.keys

instance (a : Args) : Decidable (argsExceedCaps a) := by
  unfold argsExceedCaps; infer_instance

/-- Concrete data for the C1 witness: a chain of five nested maps (depth
exactly 5, 4 keys), padded with 46 scalar keys at top level (size
exactly 50), and a chain of six nested maps (depth 6). -/
def deepChain5 : VFields :=
  .cons "a" (.vmapAny (.cons "b" (.vmapAny (.cons "c" (.vmapAny
    (.cons "d" (.vmapAny .nil) .nil)) .nil)) .nil)) .nil

def fillerFields : Nat → VFields
  | 0 => deepChain5
  | n + 1 => .cons (toString n) (.vint 0) (fillerFields n)

def exampleAtCaps : ToolExample :=
  { id := "", title := "boundary", description := ""
  , args := some (fillerFields 46), resultHint := "" }

def exampleTooDeep : ToolExample :=
  { id := "", title := "deep", description := ""
  , args := some (.cons "z" (.vmapAny deepChain5) .nil), resultHint := "" }

def emptyStore : InMemoryStore :=
  { index := fun _ => none, toolResolver := none, docs := fun _ => none, maxExamples := 0 }

def entryAtCaps : DocEntry :=
  { summary := "s", notes := "", examples := [exampleAtCaps], externalRefs := [] }

def entryTooDeep : DocEntry :=
  { summary := "s", notes := "", examples := [exampleTooDeep], externalRefs := [] }

/-- Concrete data for the C3 witness: three stored examples, configured
default 2, request 1. -/
def exW (t : String) : ToolExample :=
  { id := t, title := t, description := "", args := none, resultHint := "" }

def recC3 : docRecord :=
  { summary := "s", notes := "", examples := [exW "1", exW "2", exW "3"], externalRefs := [] }

def storeC3 : InMemoryStore :=
  { index := fun _ => none, toolResolver := none
  , docs := fun k => if k = "t" then some recC3 else none, maxExamples := 2 }

/-! ### Claims C4 and C5: DescribeTool error semantics -/

/-- Shared concrete data: a basic one-example record, a store with that
record and an always-erroring resolver, and a docs-only store. -/
def recBasic : docRecord :=
  { summary := "docs", notes := "", examples := [exW "1"], externalRefs := [] }

def storeC6 : InMemoryStore :=
  { index := fun _ => none
  , toolResolver := some (fun _ => .error "resolver boom")
  , docs := fun k => if k = "t" then some recBasic else none
  , maxExamples := 0 }

def storeC4 : InMemoryStore :=
  { index := fun _ => none, toolResolver := none
  , docs := fun k => if k = "t" then some recBasic else none, maxExamples := 0 }

/-! ### Claim C10 (corrected): empty example lists -/

/-- A record with no examples, stored behind an erroring resolver and
behind a benign store. -/
def recNoExamples : docRecord :=
  { summary := "docs", notes := "", examples := [], externalRefs := [] }

def storeC10 : InMemoryStore :=
  { index := fun _ => none
  , toolResolver := some (fun _ => .error "boom10")
  , docs := fun k => if k = "t" then some recNoExamples else none
  , maxExamples := 0 }

def storeC10ok : InMemoryStore :=
  { index := fun _ => none, toolResolver := none
  , docs := fun k => if k = "t" then some recNoExamples else none
  , maxExamples := 0 }

/-- Concrete data for C7: a tool with description "Search API" resolved
from the index, and a doc entry whose summary is empty. -/
def toolSearch : Tool :=
  { name := "search", namespc := "ns", description := "Search API", inputSchema := .snil }

def storeC7 : InMemoryStore :=
  { index := fun k => if k = "t" then some toolSearch else none
  , toolResolver := none, docs := fun _ => none, maxExamples := 0 }

def entryEmptySummary : DocEntry :=
  { summary := "", notes := "", examples := [], externalRefs := [] }

/-- Concrete data for the C8 witness: three stored examples, default
cap 2, tool resolved from the index. -/
def recC8 : docRecord :=
  { summary := "", notes := "usage notes"
  , examples := [exW "1", exW "2", exW "3"], externalRefs := ["ref1"] }

def storeC8 : InMemoryStore :=
  { index := fun k => if k = "t" then some toolSearch else none
  , toolResolver := none
  , docs := fun k => if k = "t" then some recC8 else none
  , maxExamples := 2 }

/-! ### Claim C9: deriveSchemaInfo yields data or nothing -/

/-- The schema map's `required` entry yields data: the key is present
and converts to a non-empty string list. -/
def schemaRequiredData (m : VFields) : Prop :=
  ∃ req, m.lookup "required" = some req ∧ (toStringSlice req).getD [] ≠ []

/-- Some property of the schema map yields a `type` entry. -/
def schemaTypesData (m : VFields) : Prop :=
  ∃ pm, m.lookup "properties" = some (.vmapAny pm) ∧
    ∃ p ∈ pm.toList, ∃ pm2, p.2 = Value.vmapAny pm2 ∧ (typeEntryOf pm2).isSome

/-- Some property of the schema map yields a `default` entry. -/
def schemaDefaultsData (m : VFields) : Prop :=
  ∃ pm, m.lookup "properties" = some (.vmapAny pm) ∧
    ∃ p ∈ pm.toList, ∃ pm2, p.2 = Value.vmapAny pm2 ∧ (defaultEntryOf pm2).isSome

/-!
### Claim C2: aliasing between caller, store, and returned values

Aliasing is a heap phenomenon, so the copy pipeline is re-embedded with
every mutable Go node (maps, slices, and unknown-typed values) carrying
the address of its heap cell.  A tree shows the contents reachable from
a reference; trees sharing an address model references to the same
cell, so a write to cell `l` (`mutateAtV`) rewrites the content of
every node carrying `l`, and a store-wide write (`mutateStoreA`)
applies it to everything the store holds.  `deepCopyValueA` is
`store.go`'s `deepCopyValue` with allocation made explicit: containers
get fresh addresses from a counter, typed containers are normalized
into fresh untyped cells with scalar leaves, scalars are immutable, and
unknown values (`aunk`, the `default` branch) keep their address — the
reference is shallow-copied exactly as the Go code does.
-/

namespace Alias

mutual
inductive AVal where
  | anull
  | astr (s : String)
  | abool (b : Bool)
  | aint (n : Int)
  | afloat (n : Int)
  | ajsonNum (s : String)
  | amap (addr : Nat) (fields : AFields)
  | aseq (addr : Nat) (items : AItems)
  | amapStr (addr : Nat) (fields : List (String × String))
  | amapInt (addr : Nat) (fields : List (String × Int))
  | amapFloat (addr : Nat) (fields : List (String × Int))
  | amapBool (addr : Nat) (fields : List (String × Bool))
  | aseqStr (addr : Nat) (items : List String)
  | aseqInt (addr : Nat) (items : List Int)
  | aseqFloat (addr : Nat) (items : List Int)
  | aseqBool (addr : Nat) (items : List Bool)
  | aunk (addr : Nat) (payload : Int)

inductive AFields where
  | nil
  | cons (key : String) (val : AVal) (rest : AFields)

inductive AItems where
  | nil
  | cons (val : AVal) (rest : AItems)
end

/- Typed-container normalization bodies (scalar leaves, no addresses). -/
def ofStrFieldsA : List (String × String) → AFields
  | [] => .nil
  | (k, v) :: rest => .cons k (.astr v) (ofStrFieldsA rest)

def ofIntFieldsA : List (String × Int) → AFields
  | [] => .nil
  | (k, v) :: rest => .cons k (.aint v) (ofIntFieldsA rest)

def ofFloatFieldsA : List (String × Int) → AFields
  | [] => .nil
  | (k, v) :: rest => .cons k (.afloat v) (ofFloatFieldsA rest)

def ofBoolFieldsA : List (String × Bool) → AFields
  | [] => .nil
  | (k, v) :: rest => .cons k (.abool v) (ofBoolFieldsA rest)

def ofStrItemsA : List String → AItems
  | [] => .nil
  | v :: rest => .cons (.astr v) (ofStrItemsA rest)

def ofIntItemsA : List Int → AItems
  | [] => .nil
  | v :: rest => .cons (.aint v) (ofIntItemsA rest)

def ofFloatItemsA : List Int → AItems
  | [] => .nil
  | v :: rest => .cons (.afloat v) (ofFloatItemsA rest)

def ofBoolItemsA : List Bool → AItems
  | [] => .nil
  | v :: rest => .cons (.abool v) (ofBoolItemsA rest)

/- `store.go` `deepCopyValue` with explicit allocation: the counter is
the next free address.  Untyped containers allocate a fresh cell and
recurse; typed containers allocate one fresh untyped cell with scalar
contents; scalars are returned directly; unknown values keep their
reference (same address), mirroring the shallow copy of the `default`
branch. -/
mutual
def deepCopyValueA : Nat → AVal → Nat × AVal
  | c, .amap _ fs =>
    let r := deepCopyFieldsA (c + 1) fs
    (r.1, .amap c r.2)
  | c, .aseq _ xs =>
    let r := deepCopyItemsA (c + 1) xs
    (r.1, .aseq c r.2)
  | c, .amapStr _ fs => (c + 1, .amap c (ofStrFieldsA fs))
  | c, .amapInt _ fs => (c + 1, .amap c (ofIntFieldsA fs))
  | c, .amapFloat _ fs => (c + 1, .amap c (ofFloatFieldsA fs))
  | c, .amapBool _ fs => (c + 1, .amap c (ofBoolFieldsA fs))
  | c, .aseqStr _ xs => (c + 1, .aseq c (ofStrItemsA xs))
  | c, .aseqInt _ xs => (c + 1, .aseq c (ofIntItemsA xs))
  | c, .aseqFloat _ xs => (c + 1, .aseq c (ofFloatItemsA xs))
  | c, .aseqBool _ xs => (c + 1, .aseq c (ofBoolItemsA xs))
  | c, .aunk a p => (c, .aunk a p)
  | c, .anull => (c, .anull)
  | c, .astr s => (c, .astr s)
  | c, .abool b => (c, .abool b)
  | c, .aint n => (c, .aint n)
  | c, .afloat n => (c, .afloat n)
  | c, .ajsonNum s => (c, .ajsonNum s)

def deepCopyFieldsA : Nat → AFields → Nat × AFields
  | c, .nil => (c, .nil)
  | c, .cons k v rest =>
    let r := deepCopyValueA c v
    let r2 := deepCopyFieldsA r.1 rest
    (r2.1, .cons k r.2 r2.2)

def deepCopyItemsA : Nat → AItems → Nat × AItems
  | c, .nil => (c, .nil)
  | c, .cons v rest =>
    let r := deepCopyValueA c v
    let r2 := deepCopyItemsA r.1 rest
    (r2.1, .cons r.2 r2.2)
end

/- The heap cells referenced from a tree. -/
mutual
def addrsV : AVal → List Nat
  | .amap a fs => a :: addrsF fs
  | .aseq a xs => a :: addrsI xs
  | .amapStr a _ => [a]
  | .amapInt a _ => [a]
  | .amapFloat a _ => [a]
  | .amapBool a _ => [a]
  | .aseqStr a _ => [a]
  | .aseqInt a _ => [a]
  | .aseqFloat a _ => [a]
  | .aseqBool a _ => [a]
  | .aunk a _ => [a]
  | _ => []

def addrsF : AFields → List Nat
  | .nil => []
  | .cons _ v rest => addrsV v ++ addrsF rest

def addrsI : AItems → List Nat
  | .nil => []
  | .cons v rest => addrsV v ++ addrsI rest
end

/- JSON-classifiable values: everything the deep copy fully isolates,
i.e. no unknown-typed (shallow-copied) node anywhere. -/
mutual
def jsonLikeV : AVal → Bool
  | .amap _ fs => jsonLikeF fs
  | .aseq _ xs => jsonLikeI xs
  | .aunk _ _ => false
  | _ => true

def jsonLikeF : AFields → Bool
  | .nil => true
  | .cons _ v rest => jsonLikeV v && jsonLikeF rest

def jsonLikeI : AItems → Bool
  | .nil => true
  | .cons v rest => jsonLikeV v && jsonLikeI rest
end

/-- What a writer can store into a heap cell, by cell kind. -/
inductive Mutation where
  | mmap (fields : AFields)
  | mseq (items : AItems)
  | mmapStr (fields : List (String × String))
  | mmapInt (fields : List (String × Int))
  | mmapFloat (fields : List (String × Int))
  | mmapBool (fields : List (String × Bool))
  | mseqStr (items : List String)
  | mseqInt (items : List Int)
  | mseqFloat (items : List Int)
  | mseqBool (items : List Bool)
  | munk (payload : Int)

/-- Writing `mu` into the cell a node stands for, when the kinds match
(a Go cell's type is fixed, so a mismatched write cannot happen). -/
def cellWrite (mu : Mutation) : AVal → AVal
  | .amap a fs =>
    match mu with
    | .mmap nf => .amap a nf
    | _ => .amap a fs
  | .aseq a xs =>
    match mu with
    | .mseq ni => .aseq a ni
    | _ => .aseq a xs
  | .amapStr a fs =>
    match mu with
    | .mmapStr nf => .amapStr a nf
    | _ => .amapStr a fs
  | .amapInt a fs =>
    match mu with
    | .mmapInt nf => .amapInt a nf
    | _ => .amapInt a fs
  | .amapFloat a fs =>
    match mu with
    | .mmapFloat nf => .amapFloat a nf
    | _ => .amapFloat a fs
  | .amapBool a fs =>
    match mu with
    | .mmapBool nf => .amapBool a nf
    | _ => .amapBool a fs
  | .aseqStr a xs =>
    match mu with
    | .mseqStr ni => .aseqStr a ni
    | _ => .aseqStr a xs
  | .aseqInt a xs =>
    match mu with
    | .mseqInt ni => .aseqInt a ni
    | _ => .aseqInt a xs
  | .aseqFloat a xs =>
    match mu with
    | .mseqFloat ni => .aseqFloat a ni
    | _ => .aseqFloat a xs
  | .aseqBool a xs =>
    match mu with
    | .mseqBool ni => .aseqBool a ni
    | _ => .aseqBool a xs
  | .aunk a p =>
    match mu with
    | .munk np => .aunk a np
    | _ => .aunk a p
  | v => v

/- The effect on a tree of writing `mu` into cell `l`: nodes carrying
address `l` take the new content; elsewhere the write descends into
children. -/
mutual
def mutateAtV (l : Nat) (mu : Mutation) : AVal → AVal
  | .amap a fs => if a = l then cellWrite mu (.amap a fs) else .amap a (mutateAtF l mu fs)
  | .aseq a xs => if a = l then cellWrite mu (.aseq a xs) else .aseq a (mutateAtI l mu xs)
  | .amapStr a fs => if a = l then cellWrite mu (.amapStr a fs) else .amapStr a fs
  | .amapInt a fs => if a = l then cellWrite mu (.amapInt a fs) else .amapInt a fs
  | .amapFloat a fs => if a = l then cellWrite mu (.amapFloat a fs) else .amapFloat a fs
  | .amapBool a fs => if a = l then cellWrite mu (.amapBool a fs) else .amapBool a fs
  | .aseqStr a xs => if a = l then cellWrite mu (.aseqStr a xs) else .aseqStr a xs
  | .aseqInt a xs => if a = l then cellWrite mu (.aseqInt a xs) else .aseqInt a xs
  | .aseqFloat a xs => if a = l then cellWrite mu (.aseqFloat a xs) else .aseqFloat a xs
  | .aseqBool a xs => if a = l then cellWrite mu (.aseqBool a xs) else .aseqBool a xs
  | .aunk a p => if a = l then cellWrite mu (.aunk a p) else .aunk a p
  | v => v

def mutateAtF (l : Nat) (mu : Mutation) : AFields → AFields
  | .nil => .nil
  | .cons k v rest => .cons k (mutateAtV l mu v) (mutateAtF l mu rest)

def mutateAtI (l : Nat) (mu : Mutation) : AItems → AItems
  | .nil => .nil
  | .cons v rest => .cons (mutateAtV l mu v) (mutateAtI l mu rest)
end

/-- `ToolExample` with addressed Args (only Args is mutable state). -/
structure AExample where
  id : String
  title : String
  description : String
  args : Option (Nat × AFields)
  resultHint : String

/-- `deepCopyArgs` with allocation: a non-nil map gets a fresh cell. -/
def deepCopyArgsA : Nat → Option (Nat × AFields) → Nat × Option (Nat × AFields)
  | c, none => (c, none)
  | c, some (_, fs) =>
    let r := deepCopyFieldsA (c + 1) fs
    (r.1, some (c, r.2))

/-- One example of `copyExamples`: all scalar fields copied by value,
Args deep-copied. -/
def copyExampleA (c : Nat) (ex : AExample) : Nat × AExample :=
  let r := deepCopyArgsA c ex.args
  (r.1, { ex with args := r.2 })

/-- `copyExamples`, threading the allocator. -/
def copyExamplesA : Nat → List AExample → Nat × List AExample
  | c, [] => (c, [])
  | c, ex :: rest =>
    let r := copyExampleA c ex
    let r2 := copyExamplesA r.1 rest
    (r2.1, r.2 :: r2.2)

/-- The examples portion of the store (the part Args aliasing can
reach), with the allocator for fresh heap cells. -/
structure AStore where
  docs : String → Option (List AExample)
  next : Nat

/-- `RegisterExamples`' commit: the stored list is the deep copy. -/
def registerExamplesA (s : AStore) (id : String) (exs : List AExample) : AStore :=
  let r := copyExamplesA s.next exs
  { docs := fun k => if k = id then some r.2 else s.docs k, next := r.1 }

/-- `ListExamples`' read path: returns deep copies of the stored
examples (`DescribeTool` at full detail copies through the same
`copyExamples`). -/
def listExamplesA (s : AStore) (id : String) : Option (List AExample) × AStore :=
  match s.docs id with
  | none => (none, s)
  | some exs =>
    let r := copyExamplesA s.next exs
    (some r.2, { s with next := r.1 })

/-- Writing `mu` into cell `l`, as seen from an Args reference. -/
def mutateArgsA (l : Nat) (mu : Mutation) : Option (Nat × AFields) → Option (Nat × AFields)
  | none => none
  | some (a, fs) =>
    if a = l then
      match mu with
      | .mmap nf => some (a, nf)
      | _ => some (a, fs)
    else some (a, mutateAtF l mu fs)

def mutateExampleA (l : Nat) (mu : Mutation) (ex : AExample) : AExample :=
  { ex with args := mutateArgsA l mu ex.args }

/-- A heap write seen by the whole store: every stored tree referencing
cell `l` shows the new content (trees sharing an address model
references to one cell). -/
def mutateStoreA (l : Nat) (mu : Mutation) (s : AStore) : AStore :=
  { s with docs := fun k => (s.docs k).map (List.map (mutateExampleA l mu)) }

def argsAddrs : Option (Nat × AFields) → List Nat
  | none => []
  | some (a, fs) => a :: addrsF fs

def examplesAddrs : List AExample → List Nat
  | [] => []
  | ex :: rest => argsAddrs ex.args ++ examplesAddrs rest

def argsJsonLike : Option (Nat × AFields) → Bool
  | none => true
  | some (_, fs) => jsonLikeF fs

def examplesJsonLike : List AExample → Bool
  | [] => true
  | ex :: rest => argsJsonLike ex.args && examplesJsonLike rest

/-- Concrete data refuting C2 as stated: an Args map holding an
unknown-typed value (cell 1, payload 42). -/
def exUnkA : AExample :=
  { id := "", title := "u", description := ""
  , args := some (0, .cons "k" (.aunk 1 42) .nil), resultHint := "" }

def s0A : AStore := { docs := fun _ => none, next := 2 }

def s1A : AStore := registerExamplesA s0A "t" [exUnkA]

/-- Extracts the unknown-value payload of the first returned example. -/
def headPayload : Option (List AExample) → Option Int
  | some (ex :: _) =>
    match ex.args with
    | some (_, .cons _ (.aunk _ p) _) => some p
    | _ => none
  | _ => none

/-- Witness for C2 amended: a JSON-classifiable Args map (an int leaf)
survives a caller-side write untouched. -/
def exIntA : AExample :=
  { id := "", title := "i", description := ""
  , args := some (0, .cons "k" (.aint 7) .nil), resultHint := "" }

def s0W : AStore := { docs := fun _ => none, next := 5 }

end Alias

theorem validateArgs_eq_false_iff (a : Args) :
    (ValidateArgs a).2 = false ↔
      (MaxArgsDepth < (ValidateArgs a).1.depth ∨ MaxArgsKeys < (ValidateArgs a).1.keys) := by
  cases a with
  | none => simp [ValidateArgs]
  | some m =>
    simp only [ValidateArgs, Bool.and_eq_false_iff, decide_eq_false_iff_not, Nat.not_le]

theorem buildRegisterDocExamples_error_iff : ∀ (exs : List ToolExample) (i : Nat),
    (∃ e, buildRegisterDocExamples exs i = .error e) ↔
      ∃ ex ∈ exs, argsExceedCaps ex.args
  | [], i => by simp [buildRegisterDocExamples]
  | ex :: rest, i => by
    simp only [buildRegisterDocExamples]
    cases hv : (ValidateArgs (deepCopyArgs ex.args)).2 with
    | false =>
      rw [if_neg Bool.false_ne_true]
      constructor
      · intro _
        exact ⟨ex, List.mem_cons_self ex rest, (validateArgs_eq_false_iff _).mp hv⟩
      · intro _
        exact ⟨_, rfl⟩
    | true =>
      rw [if_pos rfl]
      cases h : buildRegisterDocExamples rest (i + 1) with
      | ok l =>
        constructor
        · rintro ⟨e, he⟩
          exact Except.noConfusion he
        · rintro ⟨ex2, hmem, hval⟩
          rcases List.mem_cons.mp hmem with rfl | hmem2
          · rw [(validateArgs_eq_false_iff _).mpr hval] at hv
            cases hv
          · rcases (buildRegisterDocExamples_error_iff rest (i + 1)).mpr ⟨ex2, hmem2, hval⟩ with ⟨e, he⟩
            rw [h] at he
            cases he
      | error e0 =>
        constructor
        · intro _
          rcases (buildRegisterDocExamples_error_iff rest (i + 1)).mp ⟨e0, h⟩ with ⟨ex2, hmem2, hval⟩
          exact ⟨ex2, List.mem_cons_of_mem ex hmem2, hval⟩
        · intro _
          exact ⟨e0, rfl⟩

theorem buildRegisterDocExamples_error_shape : ∀ (exs : List ToolExample) (i : Nat) (e : StoreErr),
    buildRegisterDocExamples exs i = .error e → ∃ j t d k, e = .errArgsTooLarge j t d k
  | [], i, e => by simp [buildRegisterDocExamples]
  | ex :: rest, i, e => by
    simp only [buildRegisterDocExamples]
    cases hv : (ValidateArgs (deepCopyArgs ex.args)).2 with
    | false =>
      rw [if_neg Bool.false_ne_true]
      intro he
      injection he with h2
      subst h2
      exact ⟨i, ex.title, _, _, rfl⟩
    | true =>
      rw [if_pos rfl]
      cases h : buildRegisterDocExamples rest (i + 1) with
      | ok l => intro he; exact Except.noConfusion he
      | error e0 =>
        intro he
        injection he with h2
        subst h2
        exact buildRegisterDocExamples_error_shape rest (i + 1) e0 h

theorem buildRegisterExamplesList_error_iff : ∀ (exs : List ToolExample) (i : Nat),
    (∃ e, buildRegisterExamplesList exs i = .error e) ↔
      ∃ ex ∈ exs, argsExceedCaps ex.args
  | [], i => by simp [buildRegisterExamplesList]
  | ex :: rest, i => by
    simp only [buildRegisterExamplesList]
    cases hv : (ValidateArgs (deepCopyArgs ex.args)).2 with
    | false =>
      rw [if_neg Bool.false_ne_true]
      constructor
      · intro _
        exact ⟨ex, List.mem_cons_self ex rest, (validateArgs_eq_false_iff _).mp hv⟩
      · intro _
        exact ⟨_, rfl⟩
    | true =>
      rw [if_pos rfl]
      cases h : buildRegisterExamplesList rest (i + 1) with
      | ok l =>
        constructor
        · rintro ⟨e, he⟩
          exact Except.noConfusion he
        · rintro ⟨ex2, hmem, hval⟩
          rcases List.mem_cons.mp hmem with rfl | hmem2
          · rw [(validateArgs_eq_false_iff _).mpr hval] at hv
            cases hv
          · rcases (buildRegisterExamplesList_error_iff rest (i + 1)).mpr ⟨ex2, hmem2, hval⟩ with ⟨e, he⟩
            rw [h] at he
            cases he
      | error e0 =>
        constructor
        · intro _
          rcases (buildRegisterExamplesList_error_iff rest (i + 1)).mp ⟨e0, h⟩ with ⟨ex2, hmem2, hval⟩
          exact ⟨ex2, List.mem_cons_of_mem ex hmem2, hval⟩
        · intro _
          exact ⟨e0, rfl⟩

theorem buildRegisterExamplesList_error_shape : ∀ (exs : List ToolExample) (i : Nat) (e : StoreErr),
    buildRegisterExamplesList exs i = .error e → ∃ j t d k, e = .errArgsTooLarge j t d k
  | [], i, e => by simp [buildRegisterExamplesList]
  | ex :: rest, i, e => by
    simp only [buildRegisterExamplesList]
    cases hv : (ValidateArgs (deepCopyArgs ex.args)).2 with
    | false =>
      rw [if_neg Bool.false_ne_true]
      intro he
      injection he with h2
      subst h2
      exact ⟨i, ex.title, _, _, rfl⟩
    | true =>
      rw [if_pos rfl]
      cases h : buildRegisterExamplesList rest (i + 1) with
      | ok l => intro he; exact Except.noConfusion he
      | error e0 =>
        intro he
        injection he with h2
        subst h2
        exact buildRegisterExamplesList_error_shape rest (i + 1) e0 h

/-- `ValidateAndTruncate` keeps each example's Args unchanged, so a cap
violation among the truncated examples is one among the originals. -/
theorem validateAndTruncate_exceed_iff (entry : DocEntry) :
    (∃ ex ∈ entry.ValidateAndTruncate.examples, argsExceedCaps ex.args) ↔
      ∃ ex ∈ entry.examples, argsExceedCaps ex.args := by
  simp only [DocEntry.ValidateAndTruncate, List.mem_map]
  constructor
  · rintro ⟨ex, ⟨ex0, hmem0, rfl⟩, hex⟩
    exact ⟨ex0, hmem0, hex⟩
  · rintro ⟨ex0, hmem0, hex⟩
    exact ⟨_, ⟨ex0, hmem0, rfl⟩, hex⟩

/-! ### Claim C1 -/

/-- C1: For every id and every batch of examples submitted via
`RegisterDoc` or `RegisterExamples`, registration fails if and only if
some example's normalized Args has nesting depth greater than 5 or
combined key/element count greater than 50; every failure is
`ErrArgsTooLarge`; and on failure the store is left unchanged (no
partial record is committed). -/
theorem registration_argsTooLarge_iff_caps_exceeded
    (s : InMemoryStore) (id : String) (entry : DocEntry) (examples : List ToolExample) :
    ((RegisterDoc s id entry).2 ≠ none ↔ ∃ ex ∈ entry.examples, argsExceedCaps ex.args)
  ∧ (∀ err, (RegisterDoc s id entry).2 = some err →
      (∃ j t d k, err = StoreErr.errArgsTooLarge j t d k) ∧ (RegisterDoc s id entry).1 = s)
  ∧ ((RegisterExamples s id examples).2 ≠ none ↔ ∃ ex ∈ examples, argsExceedCaps ex.args)
  ∧ (∀ err, (RegisterExamples s id examples).2 = some err →
      (∃ j t d k, err = StoreErr.errArgsTooLarge j t d k) ∧ (RegisterExamples s id examples).1 = s) := by
  refine ⟨?_, ?_, ?_, ?_⟩
  · cases h : buildRegisterDocExamples entry.ValidateAndTruncate.examples 0 with
    | ok l =>
      have hsnd : (RegisterDoc s id entry).2 = none := by simp [RegisterDoc, h]
      constructor
      · intro hne; exact absurd hsnd hne
      · intro hex
        rcases (buildRegisterDocExamples_error_iff _ 0).mpr
          ((validateAndTruncate_exceed_iff entry).mpr hex) with ⟨e, he⟩
        rw [h] at he
        exact Except.noConfusion he
    | error e =>
      constructor
      · intro _
        exact (validateAndTruncate_exceed_iff entry).mp
          ((buildRegisterDocExamples_error_iff _ 0).mp ⟨e, h⟩)
      · intro _
        have hsnd : (RegisterDoc s id entry).2 = some e := by simp [RegisterDoc, h]
        rw [hsnd]
        exact fun hc => Option.noConfusion hc
  · intro err herr
    cases h : buildRegisterDocExamples entry.ValidateAndTruncate.examples 0 with
    | ok l =>
      have hsnd : (RegisterDoc s id entry).2 = none := by simp [RegisterDoc, h]
      rw [hsnd] at herr
      exact Option.noConfusion herr
    | error e =>
      have hsnd : (RegisterDoc s id entry).2 = some e := by simp [RegisterDoc, h]
      have hfst : (RegisterDoc s id entry).1 = s := by simp [RegisterDoc, h]
      rw [hsnd] at herr
      injection herr with h2
      subst h2
      exact ⟨buildRegisterDocExamples_error_shape _ 0 e h, hfst⟩
  · cases h : buildRegisterExamplesList examples 0 with
    | ok l =>
      have hsnd : (RegisterExamples s id examples).2 = none := by simp [RegisterExamples, h]
      constructor
      · intro hne; exact absurd hsnd hne
      · intro hex
        rcases (buildRegisterExamplesList_error_iff examples 0).mpr hex with ⟨e, he⟩
        rw [h] at he
        exact Except.noConfusion he
    | error e =>
      constructor
      · intro _
        exact (buildRegisterExamplesList_error_iff examples 0).mp ⟨e, h⟩
      · intro _
        have hsnd : (RegisterExamples s id examples).2 = some e := by simp [RegisterExamples, h]
        rw [hsnd]
        exact fun hc => Option.noConfusion hc
  · intro err herr
    cases h : buildRegisterExamplesList examples 0 with
    | ok l =>
      have hsnd : (RegisterExamples s id examples).2 = none := by simp [RegisterExamples, h]
      rw [hsnd] at herr
      exact Option.noConfusion herr
    | error e =>
      have hsnd : (RegisterExamples s id examples).2 = some e := by simp [RegisterExamples, h]
      have hfst : (RegisterExamples s id examples).1 = s := by simp [RegisterExamples, h]
      rw [hsnd] at herr
      injection herr with h2
      subst h2
      exact ⟨buildRegisterExamplesList_error_shape examples 0 e h, hfst⟩

set_option maxRecDepth 4000 in
/-- Witness for C1: a depth-6 example is rejected by both registration
paths, while an example at exactly depth 5 and size 50 succeeds. -/
theorem registration_argsTooLarge_iff_caps_exceeded_witness :
    (RegisterDoc emptyStore "t" entryTooDeep).2 ≠ none
  ∧ (RegisterDoc emptyStore "t" entryAtCaps).2 = none
  ∧ (RegisterExamples emptyStore "t" [exampleTooDeep]).2 ≠ none
  ∧ (RegisterExamples emptyStore "t" [exampleAtCaps]).2 = none := by
  refine ⟨?_, by decide, ?_, by decide⟩
  · exact (registration_argsTooLarge_iff_caps_exceeded emptyStore "t" entryTooDeep []).1.mpr
      ⟨exampleTooDeep, by simp [entryTooDeep], by decide⟩
  · exact (registration_argsTooLarge_iff_caps_exceeded emptyStore "t" entryTooDeep
      [exampleTooDeep]).2.2.1.mpr ⟨exampleTooDeep, by simp, by decide⟩

/-! ### Helper lemmas for ListExamples (claims C3, C6, C10) -/

theorem copyExamples_length (es : List ToolExample) :
    (copyExamples es).length = es.length := by
  simp [copyExamples]

theorem listLimitApplied_length (l : List ToolExample) (D R : Int) :
    ((listLimitApplied l D R).length : Int) =
      (if 0 < (if 0 < D then (if R ≤ 0 ∨ D < R then D else R) else R) ∧
          (if 0 < D then (if R ≤ 0 ∨ D < R then D else R) else R) < (l.length : Int)
       then (if 0 < D then (if R ≤ 0 ∨ D < R then D else R) else R)
       else (l.length : Int)) := by
  rw [listLimitApplied]
  by_cases h0 : l.length = 0
  · rw [if_pos h0]
    have : ¬(0 < (if 0 < D then (if R ≤ 0 ∨ D < R then D else R) else R) ∧
        (if 0 < D then (if R ≤ 0 ∨ D < R then D else R) else R) < (l.length : Int)) := by
      rw [h0]
      intro hc
      omega
    rw [if_neg this, h0]
    rfl
  · rw [if_neg h0]
    by_cases hc : 0 < (if 0 < D then (if R ≤ 0 ∨ D < R then D else R) else R) ∧
        (if 0 < D then (if R ≤ 0 ∨ D < R then D else R) else R) < (l.length : Int)
    · rw [if_pos hc, if_pos hc, List.length_take]
      omega
    · rw [if_neg hc, if_neg hc]

/-- With a record present and a non-erroring resolution, `ListExamples`
returns the copied stored examples with the limit composition applied. -/
theorem ListExamples_with_doc (s : InMemoryStore) (id : String) (m : Int)
    (r : docRecord) (hdoc : s.docs id = some r) (b : Bool)
    (hres : resolveForList s id = .ok b) :
    ListExamples s id m =
      .ok (some (listLimitApplied (copyExamples r.examples) s.maxExamples m)) := by
  rw [ListExamples]
  simp [hdoc, hres]

/-! ### Claim C3 -/

/-- C3: With a stored record holding enough examples, the number of
examples `ListExamples(id, R)` returns is `min(D, R)` when the
configured default `D` and the request `R` are both positive, `R` when
`D = 0`, `D` when `R` is zero or negative (absent), and the full stored
count when both are zero/absent. -/
theorem listExamples_limit_composition (s : InMemoryStore) (id : String) (R : Int)
    (r : docRecord) (hdoc : s.docs id = some r) (l : List ToolExample)
    (hok : ListExamples s id R = .ok (some l)) :
    (0 < s.maxExamples → 0 < R → (min s.maxExamples R).toNat ≤ r.examples.length →
        l.length = (min s.maxExamples R).toNat)
  ∧ (s.maxExamples = 0 → 0 < R → R.toNat ≤ r.examples.length → l.length = R.toNat)
  ∧ (0 < s.maxExamples → R ≤ 0 → s.maxExamples.toNat ≤ r.examples.length →
        l.length = s.maxExamples.toNat)
  ∧ (s.maxExamples = 0 → R ≤ 0 → l.length = r.examples.length) := by
  have hl : l = listLimitApplied (copyExamples r.examples) s.maxExamples R := by
    cases hres : resolveForList s id with
    | error e =>
      rw [ListExamples, hres] at hok
      exact Except.noConfusion hok
    | ok b =>
      rw [ListExamples_with_doc s id R r hdoc b hres] at hok
      injection hok with h1
      injection h1 with h2
      exact h2.symm
  subst hl
  have hlen := listLimitApplied_length (copyExamples r.examples) s.maxExamples R
  rw [copyExamples_length] at hlen
  refine ⟨?_, ?_, ?_, ?_⟩
  · intro h1 h2 h3
    split_ifs at hlen <;> omega
  · intro h1 h2 h3
    split_ifs at hlen <;> omega
  · intro h1 h2 h3
    split_ifs at hlen <;> omega
  · intro h1 h2
    split_ifs at hlen <;> omega

/-- Witness for C3: default 2 and request 1 return exactly min(2,1) = 1
of the three stored examples. -/
theorem listExamples_limit_composition_witness :
    ListExamples storeC3 "t" 1 = Except.ok (some [exW "1"])
  ∧ [exW "1"].length = (min (2 : Int) 1).toNat := by
  have hok : ListExamples storeC3 "t" 1 = Except.ok (some [exW "1"]) := rfl
  exact ⟨hok,
    (listExamples_limit_composition storeC3 "t" 1 recC3 rfl [exW "1"] hok).1
      (by decide) (by decide) (by decide)⟩

/-- C4: for an id with a registered record but no resolvable tool
(index and resolver both yield nothing, with no resolver error),
DescribeTool succeeds at DetailSummary while DetailSchema and
DetailFull both fail with ErrNoTool. -/
theorem describeTool_docsOnly_levels (s : InMemoryStore) (id : String) (r : docRecord)
    (hdoc : s.docs id = some r) (hres : resolveForDescribe s id = (none, none)) :
    DescribeTool s id DetailSummary = .ok
      { tool := none, summary := r.summary, schemaInfo := none
      , notes := "", examples := none, externalRefs := none }
  ∧ DescribeTool s id DetailSchema = .error (.errNoTool id)
  ∧ DescribeTool s id DetailFull = .error (.errNoTool id) := by
  refine ⟨?_, ?_, ?_⟩ <;>
    (rw [DescribeTool]; simp [hdoc, hres, DetailSummary, DetailSchema, DetailFull])

/-- Witness for C4 at a concrete docs-only store. -/
theorem describeTool_docsOnly_levels_witness :
    DescribeTool storeC4 "t" DetailSummary = .ok
      { tool := none, summary := recBasic.summary, schemaInfo := none
      , notes := "", examples := none, externalRefs := none }
  ∧ DescribeTool storeC4 "t" DetailSchema = .error (.errNoTool "t")
  ∧ DescribeTool storeC4 "t" DetailFull = .error (.errNoTool "t") :=
  describeTool_docsOnly_levels storeC4 "t" recBasic rfl rfl

/-- C5: with neither a record nor a resolvable tool (and no resolver
error) DescribeTool fails with ErrNotFound at every recognized level;
and whenever the resolver itself errors, DescribeTool never reports
ErrNotFound — any failure is exactly the resolver's error, verbatim. -/
theorem describeTool_notFound_and_resolver_propagation (s : InMemoryStore) (id level : String)
    (hlevel : level = DetailSummary ∨ level = DetailSchema ∨ level = DetailFull) :
    (s.docs id = none → resolveForDescribe s id = (none, none) →
        DescribeTool s id level = .error (.errNotFound id))
  ∧ (∀ e, resolveForDescribe s id = (none, some e) →
        (DescribeTool s id level ≠ .error (.errNotFound id)
         ∧ ∀ err, DescribeTool s id level = .error err → err = .resolverFailure e)) := by
  constructor
  · intro hdoc hres
    rcases hlevel with rfl | rfl | rfl <;>
      (rw [DescribeTool]; simp [hdoc, hres, DetailSummary, DetailSchema, DetailFull])
  · intro e hres
    have hcompute : DescribeTool s id level = .error (.resolverFailure e) ∨
        ∃ d, DescribeTool s id level = .ok d := by
      cases hdoc : s.docs id with
      | none =>
        left
        rcases hlevel with rfl | rfl | rfl <;>
          (rw [DescribeTool]; simp [hdoc, hres, DetailSummary, DetailSchema, DetailFull])
      | some r =>
        rcases hlevel with rfl | rfl | rfl
        · right
          refine ⟨{ tool := none, summary := r.summary, schemaInfo := none
                  , notes := "", examples := none, externalRefs := none }, ?_⟩
          rw [DescribeTool]
          simp [hdoc, hres, DetailSummary, DetailSchema, DetailFull]
        · left
          rw [DescribeTool]
          simp [hdoc, hres, DetailSummary, DetailSchema, DetailFull]
        · left
          rw [DescribeTool]
          simp [hdoc, hres, DetailSummary, DetailSchema, DetailFull]
    rcases hcompute with hc | ⟨d, hc⟩
    · constructor
      · rw [hc]
        intro h
        injection h with h2
        exact StoreErr.noConfusion h2
      · intro err h
        rw [hc] at h
        injection h with h2
        exact h2.symm
    · constructor
      · rw [hc]
        intro h
        exact Except.noConfusion h
      · intro err h
        rw [hc] at h
        exact Except.noConfusion h

/-- Witness for C5: an empty store answers NotFound; a store whose
resolver errors propagates that error instead of NotFound. -/
theorem describeTool_notFound_and_resolver_propagation_witness :
    DescribeTool emptyStore "x" DetailSummary = .error (.errNotFound "x")
  ∧ DescribeTool storeC6 "miss" DetailSchema ≠ .error (.errNotFound "miss") :=
  ⟨(describeTool_notFound_and_resolver_propagation emptyStore "x" DetailSummary
      (Or.inl rfl)).1 rfl rfl,
   ((describeTool_notFound_and_resolver_propagation storeC6 "miss" DetailSchema
      (Or.inr (Or.inl rfl))).2 "resolver boom" rfl).1⟩

/-! ### Claim C6 (corrected): ListExamples error semantics -/

/-- Counterexample for C6 as stated: a registered record does not make
`ListExamples` succeed regardless of the tool-resolution outcome — with
an index miss and an erroring resolver, the resolver error is returned
even though the record exists. -/
theorem listExamples_record_not_sufficient_counterexample :
    storeC6.docs "t" = some recBasic
  ∧ ListExamples storeC6 "t" 5 = .error (.resolverFailure "resolver boom") :=
  ⟨rfl, rfl⟩

/-- C6 amended: `ListExamples` succeeds for an id with a registered
record provided the tool-existence check does not error; when the index
misses and the resolver returns an error, that error propagates even
when a record exists; and it fails with ErrNotFound exactly when
neither a record nor a resolvable tool exists (and the resolver did not
error). -/
theorem listExamples_requires_record_or_tool (s : InMemoryStore) (id : String) (R : Int) :
    (∀ r, s.docs id = some r → ∀ b, resolveForList s id = .ok b →
        ∃ v, ListExamples s id R = .ok v)
  ∧ (∀ e, resolveForList s id = .error e →
        ListExamples s id R = .error (.resolverFailure e))
  ∧ (ListExamples s id R = .error (.errNotFound id) ↔
        (s.docs id = none ∧ resolveForList s id = .ok false)) := by
  refine ⟨?_, ?_, ?_⟩
  · intro r hdoc b hres
    exact ⟨_, ListExamples_with_doc s id R r hdoc b hres⟩
  · intro e hres
    rw [ListExamples, hres]
  · constructor
    · intro h
      cases hres : resolveForList s id with
      | error e =>
        rw [ListExamples, hres] at h
        injection h with h2
        exact StoreErr.noConfusion h2
      | ok b =>
        cases hdoc : s.docs id with
        | some r =>
          rw [ListExamples_with_doc s id R r hdoc b hres] at h
          exact Except.noConfusion h
        | none =>
          cases b with
          | true =>
            rw [ListExamples, hres] at h
            simp [hdoc] at h
          | false => exact ⟨rfl, rfl⟩
    · rintro ⟨hdoc, hres⟩
      rw [ListExamples, hres]
      simp [hdoc]

/-- Witness for C6 amended: a record with a benign (absent) resolver
succeeds; an erroring resolver propagates; an absent id is NotFound. -/
theorem listExamples_requires_record_or_tool_witness :
    (∃ v, ListExamples storeC3 "t" 0 = .ok v)
  ∧ ListExamples storeC6 "miss" 0 = .error (.resolverFailure "resolver boom")
  ∧ ListExamples storeC3 "nope" 0 = .error (.errNotFound "nope") :=
  ⟨(listExamples_requires_record_or_tool storeC3 "t" 0).1 recC3 rfl false rfl,
   (listExamples_requires_record_or_tool storeC6 "miss" 0).2.1 "resolver boom" rfl,
   (listExamples_requires_record_or_tool storeC3 "nope" 0).2.2.mpr ⟨rfl, rfl⟩⟩

/-- Counterexample for C10 as stated: an id with a record holding no
examples does not always get the empty list — when the index misses and
the resolver errors, `ListExamples` fails with the resolver error. -/
theorem listExamples_empty_counterexample :
    storeC10.docs "t" = some recNoExamples
  ∧ recNoExamples.examples = []
  ∧ ListExamples storeC10 "t" 0 = .error (.resolverFailure "boom10") :=
  ⟨rfl, rfl, rfl⟩

/-- C10 amended: provided the tool-existence check does not error, for
every id whose record holds no examples (or that has no record but a
resolvable tool), `ListExamples` returns the empty, non-nil list with
no error — emptiness is never reported as a failure. -/
theorem listExamples_empty_is_ok (s : InMemoryStore) (id : String) (R : Int) (b : Bool)
    (hres : resolveForList s id = .ok b)
    (hexists : (s.docs id).isSome ∨ b = true)
    (hempty : ∀ r, s.docs id = some r → r.examples = []) :
    ListExamples s id R = .ok (some []) := by
  cases hdoc : s.docs id with
  | some r =>
    have he := hempty r hdoc
    rw [ListExamples_with_doc s id R r hdoc b hres, he]
    simp [listLimitApplied, copyExamples]
  | none =>
    rcases hexists with hs | rfl
    · rw [hdoc] at hs
      exact absurd hs (by simp)
    · rw [ListExamples, hres]
      simp [hdoc, listLimitApplied, copyExamples]

/-- Witness for C10 amended: a record with no examples under a benign
store answers the empty list. -/
theorem listExamples_empty_is_ok_witness :
    ListExamples storeC10ok "t" 3 = .ok (some []) :=
  listExamples_empty_is_ok storeC10ok "t" 3 false rfl (Or.inl rfl)
    (fun r hr => by
      simp only [storeC10ok] at hr
      simp at hr
      rw [← hr]
      rfl)

/-! ### Claim C7 (corrected): register-then-describe summary round trip -/

/-- A successful `RegisterDoc` leaves index, resolver and configured cap
unchanged and installs a record whose summary is the truncated entry
summary. -/
theorem RegisterDoc_ok_store (s : InMemoryStore) (id : String) (e : DocEntry)
    (h : (RegisterDoc s id e).2 = none) :
    (RegisterDoc s id e).1.index = s.index
  ∧ (RegisterDoc s id e).1.toolResolver = s.toolResolver
  ∧ (RegisterDoc s id e).1.maxExamples = s.maxExamples
  ∧ ∃ record, (RegisterDoc s id e).1.docs id = some record
      ∧ record.summary = truncateString e.summary MaxSummaryLen := by
  cases hb : buildRegisterDocExamples e.ValidateAndTruncate.examples 0 with
  | error e0 =>
    have hsnd : (RegisterDoc s id e).2 = some e0 := by simp [RegisterDoc, hb]
    rw [hsnd] at h
    exact Option.noConfusion h
  | ok l =>
    refine ⟨?_, ?_, ?_, ?_⟩
    · simp [RegisterDoc, hb]
    · simp [RegisterDoc, hb]
    · simp [RegisterDoc, hb]
    · refine ⟨{ (match s.docs id with
          | some r => r
          | none => { summary := "", notes := "", examples := [], externalRefs := [] }) with
            summary := e.ValidateAndTruncate.summary
          , notes := e.ValidateAndTruncate.notes
          , examples := l
          , externalRefs := e.ValidateAndTruncate.externalRefs }, ?_, rfl⟩
      simp [RegisterDoc, hb]

/-- `resolveForDescribe` only reads the index and the resolver. -/
theorem resolveForDescribe_congr (s s2 : InMemoryStore) (id : String)
    (hi : s2.index = s.index) (hr : s2.toolResolver = s.toolResolver) :
    resolveForDescribe s2 id = resolveForDescribe s id := by
  rw [resolveForDescribe, resolveForDescribe, hi, hr]

/-- Counterexample for C7 as stated: registering an entry with an empty
summary for an id whose tool resolves with description "Search API" and
then calling DescribeTool(Summary) returns "Search API", not the
truncation of the registered summary (the empty string). -/
theorem registerDoc_describe_summary_counterexample :
    (RegisterDoc storeC7 "t" entryEmptySummary).2 = none
  ∧ DescribeTool (RegisterDoc storeC7 "t" entryEmptySummary).1 "t" DetailSummary = .ok
      { tool := none, summary := "Search API", schemaInfo := none
      , notes := "", examples := none, externalRefs := none }
  ∧ truncateString entryEmptySummary.summary MaxSummaryLen ≠ "Search API" :=
  ⟨rfl, rfl, by decide⟩

/-- C7 amended: `RegisterDoc(id, e)` immediately followed by
`DescribeTool(id, Summary)` succeeds and returns `e.Summary` truncated
to the configured cap, provided registration succeeded and either the
truncated summary is nonempty, or no tool resolves, or the resolved
tool has an empty description (otherwise the code's documented fallback
substitutes the tool description). -/
theorem registerDoc_describe_summary_roundtrip (s : InMemoryStore) (id : String) (e : DocEntry)
    (hreg : (RegisterDoc s id e).2 = none)
    (hcond : truncateString e.summary MaxSummaryLen ≠ "" ∨
      (resolveForDescribe s id).1 = none ∨
      ∃ t, (resolveForDescribe s id).1 = some t ∧ t.description = "") :
    ∃ d, DescribeTool (RegisterDoc s id e).1 id DetailSummary = .ok d ∧
      d.summary = truncateString e.summary MaxSummaryLen := by
  obtain ⟨hidx, hresv, hmax, rec, hdoc2, hsum⟩ := RegisterDoc_ok_store s id e hreg
  have hres2 : resolveForDescribe (RegisterDoc s id e).1 id = resolveForDescribe s id :=
    resolveForDescribe_congr s (RegisterDoc s id e).1 id hidx hresv
  rcases hrd : resolveForDescribe s id with ⟨tool, rerr⟩
  rw [hrd] at hres2
  cases tool with
  | none =>
    refine ⟨{ tool := none, summary := rec.summary, schemaInfo := none
            , notes := "", examples := none, externalRefs := none }, ?_, by rw [hsum]⟩
    rw [DescribeTool]
    simp [hdoc2, hres2, DetailSummary, DetailSchema, DetailFull]
  | some t =>
    have hdesc_or : ¬(rec.summary = "" ∧ ¬(t.description = "")) := by
      rcases hcond with h1 | h2 | ⟨t2, ht2, hd2⟩
      · rw [← hsum] at h1
        exact fun hc => h1 hc.1
      · rw [hrd] at h2
        exact absurd h2 (by simp)
      · rw [hrd] at ht2
        injection ht2 with h3
        rw [h3]
        exact fun hc => hc.2 hd2
    refine ⟨{ tool := none, summary := rec.summary, schemaInfo := none
            , notes := "", examples := none, externalRefs := none }, ?_, by rw [hsum]⟩
    rw [DescribeTool]
    simp [hdoc2, hres2, DetailSummary, DetailSchema, DetailFull, hdesc_or]

/-- Witness for C7 amended: a nonempty summary survives the round trip
verbatim even with a resolvable tool present. -/
theorem registerDoc_describe_summary_roundtrip_witness :
    ∃ d, DescribeTool
        (RegisterDoc storeC7 "t"
          { summary := "Create a ticket", notes := "", examples := [], externalRefs := [] }).1
        "t" DetailSummary = .ok d ∧
      d.summary = truncateString "Create a ticket" MaxSummaryLen :=
  registerDoc_describe_summary_roundtrip storeC7 "t"
    { summary := "Create a ticket", notes := "", examples := [], externalRefs := [] }
    rfl (Or.inl (by decide))

/-! ### Claim C8: what Full attaches and Schema does not -/

/-- Evaluation of `DescribeTool` at DetailFull when a record exists and
a tool resolved. -/
theorem DescribeTool_full_eq (s : InMemoryStore) (id : String) (r : docRecord)
    (hdoc : s.docs id = some r) (t : Tool) (rerr : Option String)
    (hres : resolveForDescribe s id = (some t, rerr)) :
    DescribeTool s id DetailFull = .ok
      { tool := some t
      , summary := if r.summary = "" ∧ ¬(t.description = "")
          then truncateString t.description MaxSummaryLen else r.summary
      , schemaInfo := deriveSchemaInfo t.inputSchema
      , notes := r.notes
      , examples := some (if 0 < s.maxExamples ∧
            s.maxExamples < ((copyExamples r.examples).length : Int)
          then (copyExamples r.examples).take s.maxExamples.toNat
          else copyExamples r.examples)
      , externalRefs := some r.externalRefs } := by
  rw [DescribeTool]
  simp [hdoc, hres, DetailSummary, DetailSchema, DetailFull]

/-- Evaluation of `DescribeTool` at DetailSchema when a record exists
and a tool resolved. -/
theorem DescribeTool_schema_eq (s : InMemoryStore) (id : String) (r : docRecord)
    (hdoc : s.docs id = some r) (t : Tool) (rerr : Option String)
    (hres : resolveForDescribe s id = (some t, rerr)) :
    DescribeTool s id DetailSchema = .ok
      { tool := some t
      , summary := if r.summary = "" ∧ ¬(t.description = "")
          then truncateString t.description MaxSummaryLen else r.summary
      , schemaInfo := deriveSchemaInfo t.inputSchema
      , notes := "", examples := none, externalRefs := none } := by
  rw [DescribeTool]
  simp [hdoc, hres, DetailSummary, DetailSchema, DetailFull]

/-- C8: when the tool resolves and a record exists, a successful
DetailFull call additionally carries the record's notes and
externalRefs and an examples slice capped to the configured default cap
(`DescribeTool` takes no per-request limit, so the configured default
is the entire min); at DetailSchema these fields are not attached. -/
theorem describeTool_full_attaches_extras (s : InMemoryStore) (id : String) (r : docRecord)
    (hdoc : s.docs id = some r) (t : Tool) (rerr : Option String)
    (hres : resolveForDescribe s id = (some t, rerr)) :
    (∃ d, DescribeTool s id DetailFull = .ok d
       ∧ d.notes = r.notes
       ∧ d.externalRefs = some r.externalRefs
       ∧ ∃ l, d.examples = some l
           ∧ (0 < s.maxExamples → (l.length : Int) = min (r.examples.length : Int) s.maxExamples)
           ∧ (s.maxExamples ≤ 0 → l.length = r.examples.length))
  ∧ (∃ d, DescribeTool s id DetailSchema = .ok d
       ∧ d.notes = "" ∧ d.externalRefs = none ∧ d.examples = none) := by
  constructor
  · refine ⟨_, DescribeTool_full_eq s id r hdoc t rerr hres, rfl, rfl, ?_⟩
    refine ⟨_, rfl, ?_, ?_⟩
    · intro hpos
      have hcl : (copyExamples r.examples).length = r.examples.length := copyExamples_length r.examples
      by_cases hcap : 0 < s.maxExamples ∧ s.maxExamples < ((copyExamples r.examples).length : Int)
      · rw [if_pos hcap, List.length_take]
        omega
      · rw [if_neg hcap]
        omega
    · intro hneg
      have hcl : (copyExamples r.examples).length = r.examples.length := copyExamples_length r.examples
      by_cases hcap : 0 < s.maxExamples ∧ s.maxExamples < ((copyExamples r.examples).length : Int)
      · omega
      · rw [if_neg hcap]
        omega
  · exact ⟨_, DescribeTool_schema_eq s id r hdoc t rerr hres, rfl, rfl, rfl⟩

/-- Witness for C8 at the concrete store. -/
theorem describeTool_full_attaches_extras_witness :
    (∃ d, DescribeTool storeC8 "t" DetailFull = .ok d
       ∧ d.notes = recC8.notes
       ∧ d.externalRefs = some recC8.externalRefs
       ∧ ∃ l, d.examples = some l
           ∧ (0 < storeC8.maxExamples →
                (l.length : Int) = min (recC8.examples.length : Int) storeC8.maxExamples)
           ∧ (storeC8.maxExamples ≤ 0 → l.length = recC8.examples.length))
  ∧ (∃ d, DescribeTool storeC8 "t" DetailSchema = .ok d
       ∧ d.notes = "" ∧ d.externalRefs = none ∧ d.examples = none) :=
  describeTool_full_attaches_extras storeC8 "t" recC8 rfl toolSearch none rfl

theorem asMapAny_eq_some_iff (v : Value) (m : VFields) :
    asMapAny v = some m ↔ v = .vmapAny m := by
  cases v <;> simp [asMapAny]

theorem extractProps_cons_map (name : String) (prop : Value) (rest : VFields)
    (propMap : VFields) (hm : asMapAny prop = some propMap) :
    extractProps (.cons name prop rest) =
      (match typeEntryOf propMap with
       | some ts => (name, ts) :: (extractProps rest).1
       | none => (extractProps rest).1,
       match defaultEntryOf propMap with
       | some d => (name, d) :: (extractProps rest).2
       | none => (extractProps rest).2) := by
  simp [extractProps, hm]

theorem extractProps_cons_notmap (name : String) (prop : Value) (rest : VFields)
    (hm : asMapAny prop = none) :
    extractProps (.cons name prop rest) = extractProps rest := by
  simp [extractProps, hm]

theorem extractProps_types_ne_nil_iff : ∀ (pm : VFields),
    (extractProps pm).1 ≠ [] ↔
      ∃ p ∈ pm.toList, ∃ pm2, p.2 = Value.vmapAny pm2 ∧ (typeEntryOf pm2).isSome
  | .nil => by simp [extractProps, VFields.toList]
  | .cons name prop rest => by
    have ih := extractProps_types_ne_nil_iff rest
    cases hm : asMapAny prop with
    | none =>
      rw [extractProps_cons_notmap name prop rest hm]
      simp only [VFields.toList, List.mem_cons]
      constructor
      · intro h
        rcases ih.mp h with ⟨p, hp, hdata⟩
        exact ⟨p, Or.inr hp, hdata⟩
      · rintro ⟨p, hp | hp, pm2, hpm2, hsome⟩
        · subst hp
          rw [(asMapAny_eq_some_iff prop pm2).mpr hpm2] at hm
          exact Option.noConfusion hm
        · exact ih.mpr ⟨p, hp, pm2, hpm2, hsome⟩
    | some propMap =>
      have hprop : prop = .vmapAny propMap := (asMapAny_eq_some_iff prop propMap).mp hm
      rw [extractProps_cons_map name prop rest propMap hm]
      simp only [VFields.toList, List.mem_cons]
      cases ht : typeEntryOf propMap with
      | some ts =>
        constructor
        · intro _
          exact ⟨(name, prop), Or.inl rfl, propMap, hprop, by rw [ht]; rfl⟩
        · intro _
          simp
      | none =>
        constructor
        · intro h
          rcases ih.mp h with ⟨p, hp, hdata⟩
          exact ⟨p, Or.inr hp, hdata⟩
        · rintro ⟨p, hp | hp, pm2, hpm2, hsome⟩
          · subst hp
            rw [hprop] at hpm2
            injection hpm2 with h3
            rw [← h3, ht] at hsome
            exact Bool.noConfusion hsome
          · exact ih.mpr ⟨p, hp, pm2, hpm2, hsome⟩

theorem extractProps_defaults_ne_nil_iff : ∀ (pm : VFields),
    (extractProps pm).2 ≠ [] ↔
      ∃ p ∈ pm.toList, ∃ pm2, p.2 = Value.vmapAny pm2 ∧ (defaultEntryOf pm2).isSome
  | .nil => by simp [extractProps, VFields.toList]
  | .cons name prop rest => by
    have ih := extractProps_defaults_ne_nil_iff rest
    cases hm : asMapAny prop with
    | none =>
      rw [extractProps_cons_notmap name prop rest hm]
      simp only [VFields.toList, List.mem_cons]
      constructor
      · intro h
        rcases ih.mp h with ⟨p, hp, hdata⟩
        exact ⟨p, Or.inr hp, hdata⟩
      · rintro ⟨p, hp | hp, pm2, hpm2, hsome⟩
        · subst hp
          rw [(asMapAny_eq_some_iff prop pm2).mpr hpm2] at hm
          exact Option.noConfusion hm
        · exact ih.mpr ⟨p, hp, pm2, hpm2, hsome⟩
    | some propMap =>
      have hprop : prop = .vmapAny propMap := (asMapAny_eq_some_iff prop propMap).mp hm
      rw [extractProps_cons_map name prop rest propMap hm]
      simp only [VFields.toList, List.mem_cons]
      cases hd : defaultEntryOf propMap with
      | some d =>
        constructor
        · intro _
          exact ⟨(name, prop), Or.inl rfl, propMap, hprop, by rw [hd]; rfl⟩
        · intro _
          simp
      | none =>
        constructor
        · intro h
          rcases ih.mp h with ⟨p, hp, hdata⟩
          exact ⟨p, Or.inr hp, hdata⟩
        · rintro ⟨p, hp | hp, pm2, hpm2, hsome⟩
          · subst hp
            rw [hprop] at hpm2
            injection hpm2 with h3
            rw [← h3, hd] at hsome
            exact Bool.noConfusion hsome
          · exact ih.mpr ⟨p, hp, pm2, hpm2, hsome⟩

/-- Evaluation of `deriveSchemaInfo` once the schema coerced to `m`. -/
theorem deriveSchemaInfo_eq_of_coerce (schema : SchemaInput) (m : VFields)
    (hc : coerceSchemaMap schema = some m) :
    deriveSchemaInfo schema =
      (if decide ((((match m.lookup "required" with
              | some req => toStringSlice req
              | none => (none : Option (List String)))).getD []).length > 0)
          || decide (((match (m.lookup "properties").bind asMapAny with
              | some propsMap => extractProps propsMap
              | none => ([], []))).1.length > 0)
          || decide (((match (m.lookup "properties").bind asMapAny with
              | some propsMap => extractProps propsMap
              | none => ([], []))).2.length > 0)
       then some
        { required := (match m.lookup "required" with
            | some req => toStringSlice req
            | none => (none : Option (List String)))
        , types := if ((match (m.lookup "properties").bind asMapAny with
              | some propsMap => extractProps propsMap
              | none => ([], []))).1.length = 0 then none
            else some ((match (m.lookup "properties").bind asMapAny with
              | some propsMap => extractProps propsMap
              | none => ([], []))).1
        , defaults := if ((match (m.lookup "properties").bind asMapAny with
              | some propsMap => extractProps propsMap
              | none => ([], []))).2.length = 0 then none
            else some ((match (m.lookup "properties").bind asMapAny with
              | some propsMap => extractProps propsMap
              | none => ([], []))).2 }
       else none) := by
  rw [deriveSchemaInfo, hc]

/-- C9: `deriveSchemaInfo` is a total function (the Go routine returns
no error to its caller); it returns no info exactly when the schema
cannot be coerced to a keyed mapping or none of required/types/defaults
yields any data; and whenever it returns an info, at least one field is
populated — it never returns an all-empty `SchemaInfo`. -/
theorem deriveSchemaInfo_no_data_iff (schema : SchemaInput) :
    (deriveSchemaInfo schema = none ↔
      (coerceSchemaMap schema = none ∨
       ∀ m, coerceSchemaMap schema = some m →
         (¬schemaRequiredData m ∧ ¬schemaTypesData m ∧ ¬schemaDefaultsData m)))
  ∧ (∀ info, deriveSchemaInfo schema = some info →
       (info.required.getD [] ≠ [] ∨ info.types ≠ none ∨ info.defaults ≠ none)) := by
  cases hc : coerceSchemaMap schema with
  | none =>
    have hnone : deriveSchemaInfo schema = none := by
      rw [deriveSchemaInfo, hc]
    constructor
    · constructor
      · intro _
        exact Or.inl rfl
      · intro _
        exact hnone
    · intro info h
      rw [hnone] at h
      exact Option.noConfusion h
  | some m =>
    have hreq : (((match m.lookup "required" with
          | some req => toStringSlice req
          | none => (none : Option (List String)))).getD []).length > 0 ↔
        schemaRequiredData m := by
      cases hr : m.lookup "required" with
      | none => simp [schemaRequiredData, hr]
      | some req => simp [schemaRequiredData, hr, List.length_pos]
    have hprops : ∀ pm, (m.lookup "properties").bind asMapAny = some pm →
        m.lookup "properties" = some (.vmapAny pm) := by
      intro pm hp
      cases hll : m.lookup "properties" with
      | none =>
        rw [hll] at hp
        exact Option.noConfusion hp
      | some v =>
        rw [hll] at hp
        simp only [Option.some_bind] at hp
        rw [(asMapAny_eq_some_iff v pm).mp hp]
    have htypes : ((match (m.lookup "properties").bind asMapAny with
          | some propsMap => extractProps propsMap
          | none => ([], []))).1 ≠ [] ↔ schemaTypesData m := by
      cases hp : (m.lookup "properties").bind asMapAny with
      | none =>
        constructor
        · intro h
          exact absurd rfl h
        · rintro ⟨pm, hpm, _⟩
          rw [hpm] at hp
          simp [asMapAny] at hp
      | some pm =>
        have hl := hprops pm hp
        constructor
        · intro h
          exact ⟨pm, hl, (extractProps_types_ne_nil_iff pm).mp h⟩
        · rintro ⟨pm2, hpm2, hdata⟩
          rw [hl] at hpm2
          injection hpm2 with h3
          injection h3 with h4
          subst h4
          exact (extractProps_types_ne_nil_iff pm).mpr hdata
    have hdefaults : ((match (m.lookup "properties").bind asMapAny with
          | some propsMap => extractProps propsMap
          | none => ([], []))).2 ≠ [] ↔ schemaDefaultsData m := by
      cases hp : (m.lookup "properties").bind asMapAny with
      | none =>
        constructor
        · intro h
          exact absurd rfl h
        · rintro ⟨pm, hpm, _⟩
          rw [hpm] at hp
          simp [asMapAny] at hp
      | some pm =>
        have hl := hprops pm hp
        constructor
        · intro h
          exact ⟨pm, hl, (extractProps_defaults_ne_nil_iff pm).mp h⟩
        · rintro ⟨pm2, hpm2, hdata⟩
          rw [hl] at hpm2
          injection hpm2 with h3
          injection h3 with h4
          subst h4
          exact (extractProps_defaults_ne_nil_iff pm).mpr hdata
    rw [deriveSchemaInfo_eq_of_coerce schema m hc]
    set RQ : Option (List String) := (match m.lookup "required" with
      | some req => toStringSlice req
      | none => (none : Option (List String))) with hRQ
    set PR : List (String × List String) × List (String × Value) :=
      (match (m.lookup "properties").bind asMapAny with
       | some propsMap => extractProps propsMap
       | none => ([], [])) with hPR
    constructor
    · constructor
      · intro h
        right
        intro m2 hm2
        injection hm2 with hmm
        subst hmm
        by_cases hcond : (decide ((RQ.getD []).length > 0)
            || decide (PR.1.length > 0) || decide (PR.2.length > 0)) = true
        · rw [if_pos hcond] at h
          exact Option.noConfusion h
        · simp only [Bool.or_eq_true, decide_eq_true_eq, not_or] at hcond
          obtain ⟨⟨hA, hB⟩, hC⟩ := hcond
          refine ⟨?_, ?_, ?_⟩
          · intro hdata
            exact hA (hreq.mpr hdata)
          · intro hdata
            exact hB (List.length_pos.mpr (htypes.mpr hdata))
          · intro hdata
            exact hC (List.length_pos.mpr (hdefaults.mpr hdata))
      · intro hnodata
        rcases hnodata with hcn | hall
        · exact Option.noConfusion hcn
        · obtain ⟨hA, hB, hC⟩ := hall m rfl
          have e1 : ¬((RQ.getD []).length > 0) := fun hgt => hA (hreq.mp hgt)
          have e2 : PR.1 = [] := by
            by_contra hne
            exact hB (htypes.mp hne)
          have e3 : PR.2 = [] := by
            by_contra hne
            exact hC (hdefaults.mp hne)
          have hcond : ¬((decide ((RQ.getD []).length > 0)
              || decide (PR.1.length > 0) || decide (PR.2.length > 0)) = true) := by
            simp only [Bool.or_eq_true, decide_eq_true_eq, not_or]
            refine ⟨⟨e1, ?_⟩, ?_⟩
            · rw [e2]
              simp
            · rw [e3]
              simp
          rw [if_neg hcond]
    · intro info h
      by_cases hcond : (decide ((RQ.getD []).length > 0)
          || decide (PR.1.length > 0) || decide (PR.2.length > 0)) = true
      · rw [if_pos hcond] at h
        injection h with h4
        simp only [Bool.or_eq_true, decide_eq_true_eq] at hcond
        rcases hcond with (hA | hB) | hC
        · left
          rw [← h4]
          exact List.length_pos.mp hA
        · right
          left
          rw [← h4]
          have hne : ¬(PR.1.length = 0) := by omega
          show (if PR.1.length = 0 then none else some PR.1) ≠ none
          rw [if_neg hne]
          exact fun hcc => Option.noConfusion hcc
        · right
          right
          rw [← h4]
          have hne : ¬(PR.2.length = 0) := by omega
          show (if PR.2.length = 0 then none else some PR.2) ≠ none
          rw [if_neg hne]
          exact fun hcc => Option.noConfusion hcc
      · rw [if_neg hcond] at h
        exact Option.noConfusion h

/-- Witness for C9: a schema whose `required` lists one name derives an
info whose required field is populated. -/
theorem deriveSchemaInfo_no_data_iff_witness :
    ((some ["a"] : Option (List String)).getD [] ≠ [] ∨
      (none : Option (List (String × List String))) ≠ none ∨
      (none : Option (List (String × Value))) ≠ none) :=
  (deriveSchemaInfo_no_data_iff (.smap (.cons "required" (.vseqStr ["a"]) .nil))).2
    { required := some ["a"], defaults := none, types := none } rfl

namespace Alias

/- The normalized forms of typed containers hold no references and are
JSON-classifiable. -/
theorem addrsF_ofStrFieldsA : ∀ (fs : List (String × String)), addrsF (ofStrFieldsA fs) = []
  | [] => rfl
  | (_, _) :: rest => by simp [ofStrFieldsA, addrsF, addrsV, addrsF_ofStrFieldsA rest]

theorem addrsF_ofIntFieldsA : ∀ (fs : List (String × Int)), addrsF (ofIntFieldsA fs) = []
  | [] => rfl
  | (_, _) :: rest => by simp [ofIntFieldsA, addrsF, addrsV, addrsF_ofIntFieldsA rest]

theorem addrsF_ofFloatFieldsA : ∀ (fs : List (String × Int)), addrsF (ofFloatFieldsA fs) = []
  | [] => rfl
  | (_, _) :: rest => by simp [ofFloatFieldsA, addrsF, addrsV, addrsF_ofFloatFieldsA rest]

theorem addrsF_ofBoolFieldsA : ∀ (fs : List (String × Bool)), addrsF (ofBoolFieldsA fs) = []
  | [] => rfl
  | (_, _) :: rest => by simp [ofBoolFieldsA, addrsF, addrsV, addrsF_ofBoolFieldsA rest]

theorem addrsI_ofStrItemsA : ∀ (xs : List String), addrsI (ofStrItemsA xs) = []
  | [] => rfl
  | _ :: rest => by simp [ofStrItemsA, addrsI, addrsV, addrsI_ofStrItemsA rest]

theorem addrsI_ofIntItemsA : ∀ (xs : List Int), addrsI (ofIntItemsA xs) = []
  | [] => rfl
  | _ :: rest => by simp [ofIntItemsA, addrsI, addrsV, addrsI_ofIntItemsA rest]

theorem addrsI_ofFloatItemsA : ∀ (xs : List Int), addrsI (ofFloatItemsA xs) = []
  | [] => rfl
  | _ :: rest => by simp [ofFloatItemsA, addrsI, addrsV, addrsI_ofFloatItemsA rest]

theorem addrsI_ofBoolItemsA : ∀ (xs : List Bool), addrsI (ofBoolItemsA xs) = []
  | [] => rfl
  | _ :: rest => by simp [ofBoolItemsA, addrsI, addrsV, addrsI_ofBoolItemsA rest]

theorem jsonLikeF_ofStrFieldsA : ∀ (fs : List (String × String)), jsonLikeF (ofStrFieldsA fs) = true
  | [] => rfl
  | (_, _) :: rest => by simp [ofStrFieldsA, jsonLikeF, jsonLikeV, jsonLikeF_ofStrFieldsA rest]

theorem jsonLikeF_ofIntFieldsA : ∀ (fs : List (String × Int)), jsonLikeF (ofIntFieldsA fs) = true
  | [] => rfl
  | (_, _) :: rest => by simp [ofIntFieldsA, jsonLikeF, jsonLikeV, jsonLikeF_ofIntFieldsA rest]

theorem jsonLikeF_ofFloatFieldsA : ∀ (fs : List (String × Int)), jsonLikeF (ofFloatFieldsA fs) = true
  | [] => rfl
  | (_, _) :: rest => by simp [ofFloatFieldsA, jsonLikeF, jsonLikeV, jsonLikeF_ofFloatFieldsA rest]

theorem jsonLikeF_ofBoolFieldsA : ∀ (fs : List (String × Bool)), jsonLikeF (ofBoolFieldsA fs) = true
  | [] => rfl
  | (_, _) :: rest => by simp [ofBoolFieldsA, jsonLikeF, jsonLikeV, jsonLikeF_ofBoolFieldsA rest]

theorem jsonLikeI_ofStrItemsA : ∀ (xs : List String), jsonLikeI (ofStrItemsA xs) = true
  | [] => rfl
  | _ :: rest => by simp [ofStrItemsA, jsonLikeI, jsonLikeV, jsonLikeI_ofStrItemsA rest]

theorem jsonLikeI_ofIntItemsA : ∀ (xs : List Int), jsonLikeI (ofIntItemsA xs) = true
  | [] => rfl
  | _ :: rest => by simp [ofIntItemsA, jsonLikeI, jsonLikeV, jsonLikeI_ofIntItemsA rest]

theorem jsonLikeI_ofFloatItemsA : ∀ (xs : List Int), jsonLikeI (ofFloatItemsA xs) = true
  | [] => rfl
  | _ :: rest => by simp [ofFloatItemsA, jsonLikeI, jsonLikeV, jsonLikeI_ofFloatItemsA rest]

theorem jsonLikeI_ofBoolItemsA : ∀ (xs : List Bool), jsonLikeI (ofBoolItemsA xs) = true
  | [] => rfl
  | _ :: rest => by simp [ofBoolItemsA, jsonLikeI, jsonLikeV, jsonLikeI_ofBoolItemsA rest]

/- A write to a cell not referenced from a tree leaves the tree
unchanged. -/
mutual
theorem mutateAt_noop_V : ∀ (l : Nat) (mu : Mutation) (v : AVal),
    l ∉ addrsV v → mutateAtV l mu v = v
  | l, mu, .amap a fs => fun h => by
    simp only [addrsV, List.mem_cons, not_or] at h
    simp only [mutateAtV]
    rw [if_neg (fun he => h.1 he.symm), mutateAt_noop_F l mu fs h.2]
  | l, mu, .aseq a xs => fun h => by
    simp only [addrsV, List.mem_cons, not_or] at h
    simp only [mutateAtV]
    rw [if_neg (fun he => h.1 he.symm), mutateAt_noop_I l mu xs h.2]
  | l, mu, .amapStr a fs => fun h => by
    simp only [addrsV, List.mem_singleton] at h
    simp only [mutateAtV]
    rw [if_neg (fun he => h he.symm)]
  | l, mu, .amapInt a fs => fun h => by
    simp only [addrsV, List.mem_singleton] at h
    simp only [mutateAtV]
    rw [if_neg (fun he => h he.symm)]
  | l, mu, .amapFloat a fs => fun h => by
    simp only [addrsV, List.mem_singleton] at h
    simp only [mutateAtV]
    rw [if_neg (fun he => h he.symm)]
  | l, mu, .amapBool a fs => fun h => by
    simp only [addrsV, List.mem_singleton] at h
    simp only [mutateAtV]
    rw [if_neg (fun he => h he.symm)]
  | l, mu, .aseqStr a xs => fun h => by
    simp only [addrsV, List.mem_singleton] at h
    simp only [mutateAtV]
    rw [if_neg (fun he => h he.symm)]
  | l, mu, .aseqInt a xs => fun h => by
    simp only [addrsV, List.mem_singleton] at h
    simp only [mutateAtV]
    rw [if_neg (fun he => h he.symm)]
  | l, mu, .aseqFloat a xs => fun h => by
    simp only [addrsV, List.mem_singleton] at h
    simp only [mutateAtV]
    rw [if_neg (fun he => h he.symm)]
  | l, mu, .aseqBool a xs => fun h => by
    simp only [addrsV, List.mem_singleton] at h
    simp only [mutateAtV]
    rw [if_neg (fun he => h he.symm)]
  | l, mu, .aunk a p => fun h => by
    simp only [addrsV, List.mem_singleton] at h
    simp only [mutateAtV]
    rw [if_neg (fun he => h he.symm)]
  | l, mu, .anull => fun _ => rfl
  | l, mu, .astr s => fun _ => rfl
  | l, mu, .abool b => fun _ => rfl
  | l, mu, .aint n => fun _ => rfl
  | l, mu, .afloat n => fun _ => rfl
  | l, mu, .ajsonNum s => fun _ => rfl

theorem mutateAt_noop_F : ∀ (l : Nat) (mu : Mutation) (fs : AFields),
    l ∉ addrsF fs → mutateAtF l mu fs = fs
  | l, mu, .nil => fun _ => rfl
  | l, mu, .cons k v rest => fun h => by
    simp only [addrsF, List.mem_append, not_or] at h
    simp only [mutateAtF]
    rw [mutateAt_noop_V l mu v h.1, mutateAt_noop_F l mu rest h.2]

theorem mutateAt_noop_I : ∀ (l : Nat) (mu : Mutation) (xs : AItems),
    l ∉ addrsI xs → mutateAtI l mu xs = xs
  | l, mu, .nil => fun _ => rfl
  | l, mu, .cons v rest => fun h => by
    simp only [addrsI, List.mem_append, not_or] at h
    simp only [mutateAtI]
    rw [mutateAt_noop_V l mu v h.1, mutateAt_noop_I l mu rest h.2]
end

/- Deep-copying a JSON-classifiable tree starting at counter `c` only
advances the counter and produces a tree whose references all lie in
`[c, counter')` — fresh, disjoint from everything older. -/
mutual
theorem deepCopyA_fresh_V : ∀ (c : Nat) (v : AVal), jsonLikeV v = true →
    c ≤ (deepCopyValueA c v).1 ∧
    ∀ a ∈ addrsV (deepCopyValueA c v).2, c ≤ a ∧ a < (deepCopyValueA c v).1
  | c, .amap a0 fs => fun h => by
    obtain ⟨ih1, ih2⟩ := deepCopyA_fresh_F (c + 1) fs h
    simp only [deepCopyValueA]
    refine ⟨by omega, ?_⟩
    intro a ha
    simp only [addrsV, List.mem_cons] at ha
    rcases ha with rfl | ha
    · omega
    · have := ih2 a ha
      omega
  | c, .aseq a0 xs => fun h => by
    obtain ⟨ih1, ih2⟩ := deepCopyA_fresh_I (c + 1) xs h
    simp only [deepCopyValueA]
    refine ⟨by omega, ?_⟩
    intro a ha
    simp only [addrsV, List.mem_cons] at ha
    rcases ha with rfl | ha
    · omega
    · have := ih2 a ha
      omega
  | c, .amapStr a0 fs => fun _ => by
    simp only [deepCopyValueA]
    refine ⟨Nat.le_succ c, ?_⟩
    intro a ha
    simp only [addrsV, addrsF_ofStrFieldsA, List.mem_singleton] at ha
    omega
  | c, .amapInt a0 fs => fun _ => by
    simp only [deepCopyValueA]
    refine ⟨Nat.le_succ c, ?_⟩
    intro a ha
    simp only [addrsV, addrsF_ofIntFieldsA, List.mem_singleton] at ha
    omega
  | c, .amapFloat a0 fs => fun _ => by
    simp only [deepCopyValueA]
    refine ⟨Nat.le_succ c, ?_⟩
    intro a ha
    simp only [addrsV, addrsF_ofFloatFieldsA, List.mem_singleton] at ha
    omega
  | c, .amapBool a0 fs => fun _ => by
    simp only [deepCopyValueA]
    refine ⟨Nat.le_succ c, ?_⟩
    intro a ha
    simp only [addrsV, addrsF_ofBoolFieldsA, List.mem_singleton] at ha
    omega
  | c, .aseqStr a0 xs => fun _ => by
    simp only [deepCopyValueA]
    refine ⟨Nat.le_succ c, ?_⟩
    intro a ha
    simp only [addrsV, addrsI_ofStrItemsA, List.mem_singleton] at ha
    omega
  | c, .aseqInt a0 xs => fun _ => by
    simp only [deepCopyValueA]
    refine ⟨Nat.le_succ c, ?_⟩
    intro a ha
    simp only [addrsV, addrsI_ofIntItemsA, List.mem_singleton] at ha
    omega
  | c, .aseqFloat a0 xs => fun _ => by
    simp only [deepCopyValueA]
    refine ⟨Nat.le_succ c, ?_⟩
    intro a ha
    simp only [addrsV, addrsI_ofFloatItemsA, List.mem_singleton] at ha
    omega
  | c, .aseqBool a0 xs => fun _ => by
    simp only [deepCopyValueA]
    refine ⟨Nat.le_succ c, ?_⟩
    intro a ha
    simp only [addrsV, addrsI_ofBoolItemsA, List.mem_singleton] at ha
    omega
  | c, .aunk a p => fun h => by
    simp [jsonLikeV] at h
  | c, .anull => fun _ => by
    simp only [deepCopyValueA]
    refine ⟨Nat.le_refl c, ?_⟩
    intro a ha
    simp [addrsV] at ha
  | c, .astr s => fun _ => by
    simp only [deepCopyValueA]
    refine ⟨Nat.le_refl c, ?_⟩
    intro a ha
    simp [addrsV] at ha
  | c, .abool b => fun _ => by
    simp only [deepCopyValueA]
    refine ⟨Nat.le_refl c, ?_⟩
    intro a ha
    simp [addrsV] at ha
  | c, .aint n => fun _ => by
    simp only [deepCopyValueA]
    refine ⟨Nat.le_refl c, ?_⟩
    intro a ha
    simp [addrsV] at ha
  | c, .afloat n => fun _ => by
    simp only [deepCopyValueA]
    refine ⟨Nat.le_refl c, ?_⟩
    intro a ha
    simp [addrsV] at ha
  | c, .ajsonNum s => fun _ => by
    simp only [deepCopyValueA]
    refine ⟨Nat.le_refl c, ?_⟩
    intro a ha
    simp [addrsV] at ha

theorem deepCopyA_fresh_F : ∀ (c : Nat) (fs : AFields), jsonLikeF fs = true →
    c ≤ (deepCopyFieldsA c fs).1 ∧
    ∀ a ∈ addrsF (deepCopyFieldsA c fs).2, c ≤ a ∧ a < (deepCopyFieldsA c fs).1
  | c, .nil => fun _ => by
    simp only [deepCopyFieldsA]
    refine ⟨Nat.le_refl c, ?_⟩
    intro a ha
    simp [addrsF] at ha
  | c, .cons k v rest => fun h => by
    simp only [jsonLikeF, Bool.and_eq_true] at h
    obtain ⟨ih1, ih2⟩ := deepCopyA_fresh_V c v h.1
    obtain ⟨jh1, jh2⟩ := deepCopyA_fresh_F (deepCopyValueA c v).1 rest h.2
    simp only [deepCopyFieldsA]
    refine ⟨by omega, ?_⟩
    intro a ha
    simp only [addrsF, List.mem_append] at ha
    rcases ha with ha | ha
    · have := ih2 a ha
      omega
    · have := jh2 a ha
      omega

theorem deepCopyA_fresh_I : ∀ (c : Nat) (xs : AItems), jsonLikeI xs = true →
    c ≤ (deepCopyItemsA c xs).1 ∧
    ∀ a ∈ addrsI (deepCopyItemsA c xs).2, c ≤ a ∧ a < (deepCopyItemsA c xs).1
  | c, .nil => fun _ => by
    simp only [deepCopyItemsA]
    refine ⟨Nat.le_refl c, ?_⟩
    intro a ha
    simp [addrsI] at ha
  | c, .cons v rest => fun h => by
    simp only [jsonLikeI, Bool.and_eq_true] at h
    obtain ⟨ih1, ih2⟩ := deepCopyA_fresh_V c v h.1
    obtain ⟨jh1, jh2⟩ := deepCopyA_fresh_I (deepCopyValueA c v).1 rest h.2
    simp only [deepCopyItemsA]
    refine ⟨by omega, ?_⟩
    intro a ha
    simp only [addrsI, List.mem_append] at ha
    rcases ha with ha | ha
    · have := ih2 a ha
      omega
    · have := jh2 a ha
      omega
end

/- Deep copy of a JSON-classifiable tree is JSON-classifiable. -/
mutual
theorem deepCopyA_jsonLike_V : ∀ (c : Nat) (v : AVal), jsonLikeV v = true →
    jsonLikeV (deepCopyValueA c v).2 = true
  | c, .amap a0 fs => fun h => by
    simp only [deepCopyValueA, jsonLikeV]
    exact deepCopyA_jsonLike_F (c + 1) fs h
  | c, .aseq a0 xs => fun h => by
    simp only [deepCopyValueA, jsonLikeV]
    exact deepCopyA_jsonLike_I (c + 1) xs h
  | c, .amapStr a0 fs => fun _ => by
    simp only [deepCopyValueA, jsonLikeV]
    exact jsonLikeF_ofStrFieldsA fs
  | c, .amapInt a0 fs => fun _ => by
    simp only [deepCopyValueA, jsonLikeV]
    exact jsonLikeF_ofIntFieldsA fs
  | c, .amapFloat a0 fs => fun _ => by
    simp only [deepCopyValueA, jsonLikeV]
    exact jsonLikeF_ofFloatFieldsA fs
  | c, .amapBool a0 fs => fun _ => by
    simp only [deepCopyValueA, jsonLikeV]
    exact jsonLikeF_ofBoolFieldsA fs
  | c, .aseqStr a0 xs => fun _ => by
    simp only [deepCopyValueA, jsonLikeV]
    exact jsonLikeI_ofStrItemsA xs
  | c, .aseqInt a0 xs => fun _ => by
    simp only [deepCopyValueA, jsonLikeV]
    exact jsonLikeI_ofIntItemsA xs
  | c, .aseqFloat a0 xs => fun _ => by
    simp only [deepCopyValueA, jsonLikeV]
    exact jsonLikeI_ofFloatItemsA xs
  | c, .aseqBool a0 xs => fun _ => by
    simp only [deepCopyValueA, jsonLikeV]
    exact jsonLikeI_ofBoolItemsA xs
  | c, .aunk a p => fun h => by
    simp [jsonLikeV] at h
  | c, .anull => fun _ => rfl
  | c, .astr s => fun _ => rfl
  | c, .abool b => fun _ => rfl
  | c, .aint n => fun _ => rfl
  | c, .afloat n => fun _ => rfl
  | c, .ajsonNum s => fun _ => rfl

theorem deepCopyA_jsonLike_F : ∀ (c : Nat) (fs : AFields), jsonLikeF fs = true →
    jsonLikeF (deepCopyFieldsA c fs).2 = true
  | c, .nil => fun _ => rfl
  | c, .cons k v rest => fun h => by
    simp only [jsonLikeF, Bool.and_eq_true] at h
    simp only [deepCopyFieldsA, jsonLikeF, Bool.and_eq_true]
    exact ⟨deepCopyA_jsonLike_V c v h.1,
      deepCopyA_jsonLike_F (deepCopyValueA c v).1 rest h.2⟩

theorem deepCopyA_jsonLike_I : ∀ (c : Nat) (xs : AItems), jsonLikeI xs = true →
    jsonLikeI (deepCopyItemsA c xs).2 = true
  | c, .nil => fun _ => rfl
  | c, .cons v rest => fun h => by
    simp only [jsonLikeI, Bool.and_eq_true] at h
    simp only [deepCopyItemsA, jsonLikeI, Bool.and_eq_true]
    exact ⟨deepCopyA_jsonLike_V c v h.1,
      deepCopyA_jsonLike_I (deepCopyValueA c v).1 rest h.2⟩
end

theorem deepCopyArgsA_fresh (c : Nat) (args : Option (Nat × AFields))
    (h : argsJsonLike args = true) :
    c ≤ (deepCopyArgsA c args).1 ∧
    (∀ a ∈ argsAddrs (deepCopyArgsA c args).2, c ≤ a ∧ a < (deepCopyArgsA c args).1) ∧
    argsJsonLike (deepCopyArgsA c args).2 = true := by
  cases args with
  | none =>
    refine ⟨Nat.le_refl c, ?_, rfl⟩
    intro a ha
    simp [deepCopyArgsA, argsAddrs] at ha
  | some p =>
    obtain ⟨a0, fs⟩ := p
    obtain ⟨f1, f2⟩ := deepCopyA_fresh_F (c + 1) fs h
    simp only [deepCopyArgsA]
    refine ⟨by omega, ?_, deepCopyA_jsonLike_F (c + 1) fs h⟩
    intro a ha
    simp only [argsAddrs, List.mem_cons] at ha
    rcases ha with rfl | ha
    · omega
    · have := f2 a ha
      omega

theorem copyExamplesA_fresh : ∀ (c : Nat) (exs : List AExample),
    examplesJsonLike exs = true →
    c ≤ (copyExamplesA c exs).1 ∧
    (∀ a ∈ examplesAddrs (copyExamplesA c exs).2, c ≤ a ∧ a < (copyExamplesA c exs).1) ∧
    examplesJsonLike (copyExamplesA c exs).2 = true
  | c, [] => fun _ => by
    refine ⟨Nat.le_refl c, ?_, rfl⟩
    intro a ha
    simp [copyExamplesA, examplesAddrs] at ha
  | c, ex :: rest => fun h => by
    simp only [examplesJsonLike, Bool.and_eq_true] at h
    obtain ⟨e1, e2, e3⟩ := deepCopyArgsA_fresh c ex.args h.1
    obtain ⟨r1, r2, r3⟩ := copyExamplesA_fresh (deepCopyArgsA c ex.args).1 rest h.2
    simp only [copyExamplesA, copyExampleA]
    refine ⟨by omega, ?_, ?_⟩
    · intro a ha
      simp only [examplesAddrs, List.mem_append] at ha
      rcases ha with ha | ha
      · have := e2 a ha
        omega
      · have := r2 a ha
        omega
    · simp only [examplesJsonLike, Bool.and_eq_true]
      exact ⟨e3, r3⟩

theorem mutateArgsA_noop (l : Nat) (mu : Mutation) (args : Option (Nat × AFields))
    (h : l ∉ argsAddrs args) : mutateArgsA l mu args = args := by
  cases args with
  | none => rfl
  | some p =>
    obtain ⟨a0, fs⟩ := p
    simp only [argsAddrs, List.mem_cons, not_or] at h
    simp only [mutateArgsA]
    rw [if_neg (fun he => h.1 he.symm), mutateAt_noop_F l mu fs h.2]

theorem mutateExamplesA_noop : ∀ (l : Nat) (mu : Mutation) (exs : List AExample),
    l ∉ examplesAddrs exs → List.map (mutateExampleA l mu) exs = exs
  | l, mu, [] => fun _ => rfl
  | l, mu, ex :: rest => fun h => by
    simp only [examplesAddrs, List.mem_append, not_or] at h
    have hex : mutateExampleA l mu ex = ex := by
      simp only [mutateExampleA]
      rw [mutateArgsA_noop l mu ex.args h.1]
    rw [List.map_cons, hex, mutateExamplesA_noop l mu rest h.2]

/-- Counterexample for C2 as stated: `deepCopyValue` shallow-copies an
unknown-typed value (the `default` branch keeps the reference), so
after registering Args that contain one, writing through the caller's
retained reference (cell 1) changes what a later `ListExamples`
returns. -/
theorem aliasing_counterexample :
    headPayload (listExamplesA s1A "t").1 = some 42
  ∧ headPayload (listExamplesA (mutateStoreA 1 (.munk 99) s1A) "t").1 = some 99
  ∧ (listExamplesA (mutateStoreA 1 (.munk 99) s1A) "t").1 ≠ (listExamplesA s1A "t").1 := by
  refine ⟨rfl, rfl, ?_⟩
  intro h
  have h99 : headPayload (listExamplesA (mutateStoreA 1 (.munk 99) s1A) "t").1 = some 99 := rfl
  rw [h] at h99
  have h42 : headPayload (listExamplesA s1A "t").1 = some 42 := rfl
  rw [h42] at h99
  exact absurd h99 (by decide)

/-- C2 amended: for JSON-classifiable Args (no unknown-typed values —
those are shallow-copied by design), returned Args never alias stored
Args in either direction: writing any cell of the caller's original
Args after registration, or any cell of a previously returned example's
Args, never changes what a later `ListExamples` returns. -/
theorem register_list_isolation (s : AStore) (id : String) (exs : List AExample)
    (hjson : examplesJsonLike exs = true)
    (hbound : ∀ a ∈ examplesAddrs exs, a < s.next) :
    (∀ l ∈ examplesAddrs exs, ∀ mu,
        (listExamplesA (mutateStoreA l mu (registerExamplesA s id exs)) id).1 =
        (listExamplesA (registerExamplesA s id exs) id).1)
  ∧ (∀ ret s2, listExamplesA (registerExamplesA s id exs) id = (some ret, s2) →
      ∀ l ∈ examplesAddrs ret, ∀ mu,
        (listExamplesA (mutateStoreA l mu s2) id).1 = (listExamplesA s2 id).1) := by
  obtain ⟨c1ge, cstored, cjson⟩ := copyExamplesA_fresh s.next exs hjson
  constructor
  · intro l hl mu
    have hlt : l < s.next := hbound l hl
    have hnotin : l ∉ examplesAddrs (copyExamplesA s.next exs).2 := by
      intro hin
      have := cstored l hin
      omega
    have hmap := mutateExamplesA_noop l mu (copyExamplesA s.next exs).2 hnotin
    simp [registerExamplesA, mutateStoreA, listExamplesA, hmap]
  · intro ret s2 heq l hl mu
    have hread : listExamplesA (registerExamplesA s id exs) id =
        (some (copyExamplesA (copyExamplesA s.next exs).1 (copyExamplesA s.next exs).2).2,
         { docs := fun k => if k = id then some (copyExamplesA s.next exs).2 else s.docs k
         , next := (copyExamplesA (copyExamplesA s.next exs).1 (copyExamplesA s.next exs).2).1 }) := by
      simp [registerExamplesA, listExamplesA]
    rw [hread] at heq
    injection heq with hA hB
    injection hA with hA2
    obtain ⟨d1, d2, d3⟩ := copyExamplesA_fresh (copyExamplesA s.next exs).1
      (copyExamplesA s.next exs).2 cjson
    have hge : (copyExamplesA s.next exs).1 ≤ l := by
      rw [← hA2] at hl
      exact (d2 l hl).1
    have hnotin : l ∉ examplesAddrs (copyExamplesA s.next exs).2 := by
      intro hin
      have := cstored l hin
      omega
    have hmap := mutateExamplesA_noop l mu (copyExamplesA s.next exs).2 hnotin
    rw [← hB]
    simp [mutateStoreA, listExamplesA, hmap]

theorem register_list_isolation_witness :
    (listExamplesA (mutateStoreA 0 (.munk 99) (registerExamplesA s0W "t" [exIntA])) "t").1 =
    (listExamplesA (registerExamplesA s0W "t" [exIntA]) "t").1 :=
  (register_list_isolation s0W "t" [exIntA] (by decide) (by decide)).1 0 (by decide) (.munk 99)

end Alias

end Tooldocs
